import Mathlib

/-!
# Formal model of the palette editor core (`src/main.ts`)

This file is a shallow embedding of the palette interchange engine of the
repository: color normalization (`normalizeHex`, `hexToRgb`), the GPL codec
(`toGpl`, `parseGpl`), the JSON codec (the `btnSave` encoder and the
`fileInput` decoder), the store operation `addOrUpdate`, and the grid layout
arithmetic of `renderPng`.

Modelling conventions:
* JS strings are Lean `String`s, manipulated through their `List Char` data.
  The JS character classes (`\s`, line terminators, `[0-9]`) are defined by
  code point, following ECMAScript.
* JS numbers are modelled as `Int` (all numbers the engine produces and
  consumes on the verified paths are integers; fractional, hexadecimal and
  exponent numeric literal forms are outside the model).
* JSON documents are modelled as a `JValue` inductive; `JSON.stringify` /
  `JSON.parse` (runtime facilities, not repository code) are treated as the
  identity between the document and its text, so codecs go `JValue`-to-store.
* Thrown exceptions are modelled with `Except`.
-/

/-! ## Character classes (ECMAScript) -/

/-- The JS regex class `\s` (ECMAScript WhiteSpace ∪ LineTerminator), by code
point. This is also the set of characters removed by `String.prototype.trim`. -/
def isJsWs (c : Char) : Bool :=
  let n := c.toNat
  n == 9 || n == 10 || n == 11 || n == 12 || n == 13 || n == 32 || n == 160 ||
  n == 5760 || (decide (8192 ≤ n) && decide (n ≤ 8202)) || n == 8232 ||
  n == 8233 || n == 8239 || n == 8287 || n == 12288 || n == 65279

/-- JS line terminators: the characters the regex `.` does not match. -/
def isLineTerm (c : Char) : Bool :=
  let n := c.toNat
  n == 10 || n == 13 || n == 8232 || n == 8233

/-- The JS regex class `\d`, i.e. `[0-9]`. -/
def isDigitCh (c : Char) : Bool :=
  48 ≤ c.toNat && c.toNat ≤ 57

/-- The JS regex class `[0-9a-fA-F]`. -/
def isHexDigitCh (c : Char) : Bool :=
  isDigitCh c || (97 ≤ c.toNat && c.toNat ≤ 102) || (65 ≤ c.toNat && c.toNat ≤ 70)

/-! ## String primitives (on `List Char`) -/

/-- `String.prototype.trim` on character lists. -/
def jsTrimL (cs : List Char) : List Char :=
  (((cs.dropWhile isJsWs).reverse).dropWhile isJsWs).reverse

/-- `String.prototype.trim`. -/
def jsTrim (s : String) : String :=
  String.mk (jsTrimL s.data)

/-- Helper for `collapseWsL`: the flag records whether we are inside a
whitespace run whose replacement `' '` has already been emitted. -/
def collapseWsAux : Bool → List Char → List Char
  | _, [] => []
  | true, c :: cs =>
    if isJsWs c then collapseWsAux true cs else c :: collapseWsAux false cs
  | false, c :: cs =>
    if isJsWs c then ' ' :: collapseWsAux true cs else c :: collapseWsAux false cs

/-- `s.replace(/\s+/g, ' ')`: every maximal whitespace run becomes one space. -/
def collapseWsL (cs : List Char) : List Char :=
  collapseWsAux false cs

/-- `text.replace(/\r\n/g, '\n')`: left-to-right, non-overlapping. -/
def normCrlf : List Char → List Char
  | [] => []
  | [c] => [c]
  | c1 :: c2 :: cs =>
    if c1 = '\r' ∧ c2 = '\n' then '\n' :: normCrlf cs
    else c1 :: normCrlf (c2 :: cs)

/-- `text.split('\n')` on character lists. -/
def splitNlL : List Char → List (List Char)
  | [] => [[]]
  | c :: cs =>
    if c = '\n' then [] :: splitNlL cs
    else
      match splitNlL cs with
      | [] => [[c]]
      | l :: ls => (c :: l) :: ls

/-- `lines.join('\n')` on character lists. -/
def joinNl : List (List Char) → List Char
  | [] => []
  | [l] => l
  | l :: ls => l ++ '\n' :: joinNl ls

/-- `pre` is a prefix of `l` (`String.prototype.startsWith`). -/
def startsL : List Char → List Char → Bool
  | [], _ => true
  | _ :: _, [] => false
  | p :: ps, c :: cs => p == c && startsL ps cs

/-- Value of a decimal digit list (the value `parseInt(s, 10)` yields on an
all-digit string; clamping keeps the engine inside exact float range). -/
def natOfDigits (cs : List Char) : Nat :=
  cs.foldl (fun n c => n * 10 + (c.toNat - 48)) 0

/-- The decimal digit character of `d < 10`. -/
def digitChar10 (d : Nat) : Char :=
  Char.ofNat (48 + d)

/-- Fuel-driven digit expansion; `natDecDigits` supplies enough fuel, so the
fuel-exhausted row is unreachable there. -/
def natDecAux : Nat → Nat → List Char
  | 0, n => [digitChar10 n]
  | f + 1, n =>
    if n < 10 then [digitChar10 n]
    else natDecAux f (n / 10) ++ [digitChar10 (n % 10)]

/-- Decimal digits of a natural number (JS `Number.prototype.toString`). -/
def natDecDigits (n : Nat) : List Char :=
  natDecAux n n

/-- `String(n)` for a natural number. -/
def natDecString (n : Nat) : String :=
  String.mk (natDecDigits n)

/-- `String(n)` for a JS integer. -/
def intDecString (n : Int) : String :=
  if n < 0 then String.mk ('-' :: natDecDigits n.natAbs) else natDecString n.natAbs

/-- `s.padStart(3, ' ')` on character lists. -/
def padTo3 (l : List Char) : List Char :=
  List.replicate (3 - l.length) ' ' ++ l

/-- ASCII uppercasing of a character. `String.prototype.toUpperCase` restricted
to ASCII; every use site in the source only ever uppercases ASCII data
(`#`, decimal digits, `a`–`f` hex digits). -/
def asciiUpper (c : Char) : Char :=
  if 97 ≤ c.toNat ∧ c.toNat ≤ 122 then Char.ofNat (c.toNat - 32) else c

/-- ASCII `String.prototype.toUpperCase` on strings. -/
def asciiUpperStr (s : String) : String :=
  String.mk (s.data.map asciiUpper)

/-- `clamp(n, a, b)` from the source: `Math.max(a, Math.min(b, n))`. -/
def jsClamp (n a b : Int) : Int :=
  max a (min b n)

/-! ## ColorModel -/

/-- Full-string match of the regex `/^#[0-9a-fA-F]{6}$/`. -/
def matchesHexPattern (s : String) : Bool :=
  match s.data with
  | '#' :: rest => rest.length == 6 && rest.all isHexDigitCh
  | _ => false

/-- `normalizeHex` from the source: trim; if the trimmed string matches
`/^#[0-9a-fA-F]{6}$/`, return it uppercased, else return `"#000000"`. -/
def normalizeHex (hex : String) : String :=
  let h := jsTrim hex
  if matchesHexPattern h then asciiUpperStr h else "#000000"

/-- Value of a hex digit character (`parseInt(-, 16)` on one digit). -/
def hexDigitVal (c : Char) : Nat :=
  let n := c.toNat
  if 48 ≤ n ∧ n ≤ 57 then n - 48
  else if 97 ≤ n ∧ n ≤ 102 then n - 87
  else if 65 ≤ n ∧ n ≤ 70 then n - 55
  else 0

/-- `hexToRgb` from the source: normalize, drop `#`, decode three two-digit
groups. `normalizeHex` always yields `#` + 6 hex digits, so the wildcard row
is unreachable (established by `normalizeHex_shape`). -/
def hexToRgb (hex : String) : Nat × Nat × Nat :=
  match (normalizeHex hex).data with
  | ['#', a, b, c, d, e, f] =>
    (16 * hexDigitVal a + hexDigitVal b,
     16 * hexDigitVal c + hexDigitVal d,
     16 * hexDigitVal e + hexDigitVal f)
  | _ => (0, 0, 0)

/-- The lowercase hex digit character of `d < 16`
(`Number.prototype.toString(16)` digits). -/
def hexDigitChar (d : Nat) : Char :=
  if d < 10 then Char.ofNat (48 + d) else Char.ofNat (87 + d)

/-- `v.toString(16).padStart(2, '0')` for a byte value `v ≤ 255`. -/
def hexTwo (v : Nat) : List Char :=
  [hexDigitChar (v / 16 % 16), hexDigitChar (v % 16)]

/-- The hex string `parseGpl` builds from three clamped channel values:
`` `#${r.toString(16).padStart(2,'0')}…`.toUpperCase() ``. -/
def gplHexOf (r g b : Nat) : String :=
  asciiUpperStr (String.mk ('#' :: (hexTwo r ++ hexTwo g ++ hexTwo b)))

/-! ## Data model -/

/-- A palette entry as decoded by either codec, before an `id` is attached:
the `{ name, index, hex }` records of `parseGpl` and of `PaletteFileV1.items`. -/
structure RawItem where
  name : String
  index : Int
  hex : String
deriving DecidableEq, Repr

/-- `PaletteItem` from the source. -/
structure PaletteItem where
  id : String
  name : String
  index : Int
  hex : String
deriving DecidableEq, Repr

/-! ## GPL codec -/

/-- The match of `/^(\d+)\s+(\d+)\s+(\d+)\s*(.*)$/` against a line, returning
the three digit-group values and `m[4]`.

The regex is deterministic on any input: each `\d+`/`\s+` can only match the
maximal run (giving back characters makes the next atom fail on the same
character class), `\s*` greedily eats the whitespace run after the third
number, and `(.*)$` succeeds exactly when the remainder contains no line
terminator (which backtracking into `\s*` cannot repair, since the terminator
stays in the remainder). -/
def matchTriple (l : List Char) : Option (Nat × Nat × Nat × List Char) :=
  let d1 := l.takeWhile isDigitCh
  let r1 := l.dropWhile isDigitCh
  let w1 := r1.takeWhile isJsWs
  let r2 := r1.dropWhile isJsWs
  let d2 := r2.takeWhile isDigitCh
  let r3 := r2.dropWhile isDigitCh
  let w2 := r3.takeWhile isJsWs
  let r4 := r3.dropWhile isJsWs
  let d3 := r4.takeWhile isDigitCh
  let r5 := r4.dropWhile isDigitCh
  let rest := r5.dropWhile isJsWs
  if d1.isEmpty || w1.isEmpty || d2.isEmpty || w2.isEmpty || d3.isEmpty ||
      rest.any isLineTerm then
    none
  else
    some (natOfDigits d1, natOfDigits d2, natOfDigits d3, rest)

/-- One loop iteration of `parseGpl` up to the counter: trim the raw line,
apply the five skip tests, then attempt the triple match. -/
def acceptedLine (raw : List Char) : Option (Nat × Nat × Nat × List Char) :=
  let line := jsTrimL raw
  if line.isEmpty then none
  else if startsL ['#'] line then none
  else if startsL "GIMP Palette".data line then none
  else if startsL "Name:".data line then none
  else if startsL "Columns:".data line then none
  else matchTriple line

/-- The record `parseGpl` pushes for the `idx`-th accepted line: clamp the
three numbers to `[0,255]`, default / trim the name, build the hex string. -/
def mkGplRec (idx : Nat) (m : Nat × Nat × Nat × List Char) : RawItem :=
  let r := (jsClamp (Int.ofNat m.1) 0 255).toNat
  let g := (jsClamp (Int.ofNat m.2.1) 0 255).toNat
  let b := (jsClamp (Int.ofNat m.2.2.1) 0 255).toNat
  let m4 := String.mk m.2.2.2
  let a := if m4 = "" then "Color " ++ natDecString idx else m4
  let trimmed := jsTrim a
  let name := if trimmed = "" then "Color " ++ natDecString idx else trimmed
  { name := name, index := Int.ofNat idx, hex := gplHexOf r g b }

/-- The loop body of `parseGpl`: state is `(out, idx)`. -/
def gplStep (st : List RawItem × Nat) (raw : List Char) : List RawItem × Nat :=
  match acceptedLine raw with
  | none => st
  | some m => (st.1 ++ [mkGplRec st.2 m], st.2 + 1)

/-- `parseGpl` from the source: normalize CRLF, split into lines, fold the
skip/match/push loop. -/
def parseGpl (text : String) : List RawItem :=
  ((splitNlL (normCrlf text.data)).foldl gplStep ([], 0)).1

/-- The accepted-line matches of a text, in file order (specification side of
the `parseGpl` characterization). -/
def acceptedOf (text : String) : List (Nat × Nat × Nat × List Char) :=
  (splitNlL (normCrlf text.data)).filterMap acceptedLine

/-- Stable insertion keyed on `index` (helper for `sortByIndex`). -/
def insertByIndex (x : PaletteItem) : List PaletteItem → List PaletteItem
  | [] => [x]
  | y :: ys => if x.index ≤ y.index then x :: y :: ys else y :: insertByIndex x ys

/-- `items.slice().sort((a, b) => a.index - b.index)`: a stable sort by
ascending `index` (JS `Array.prototype.sort` is stable). -/
def sortByIndex : List PaletteItem → List PaletteItem
  | [] => []
  | x :: xs => insertByIndex x (sortByIndex xs)

/-- The line `toGpl` emits for one item:
`` `${r...3} ${g...3} ${b...3}\t${name}` `` with the channels right-justified
to width 3 and the name whitespace-collapsed and trimmed. -/
def gplLineOf (it : PaletteItem) : List Char :=
  let rgb := hexToRgb it.hex
  let nm := jsTrimL (collapseWsL it.name.data)
  padTo3 (natDecDigits rgb.1) ++ ' ' :: padTo3 (natDecDigits rgb.2.1) ++
    ' ' :: padTo3 (natDecDigits rgb.2.2) ++ '\t' :: nm

/-- `toGpl` from the source: header lines, one line per item in ascending
`index` order, joined by `'\n'` with one trailing newline. -/
def toGpl (items : List PaletteItem) : String :=
  String.mk
    (joinNl (["GIMP Palette".data, "Name: Palette".data, ['#']] ++
      (sortByIndex items).map gplLineOf) ++ ['\n'])

/-- The GPL branch of the `fileInput` load handler (source line 471): attach a
fresh id to each parsed record and re-normalize its hex. `ids k` stands for
the value of the `k`-th `makeId()` call. -/
def loadGpl (ids : Nat → String) : Nat → List RawItem → List PaletteItem
  | _, [] => []
  | k, x :: xs =>
    { id := ids k, name := x.name, index := x.index, hex := normalizeHex x.hex } ::
      loadGpl ids (k + 1) xs

/-! ## JSON model -/

/-- JSON documents (numbers modelled as integers, see the header comment). -/
inductive JValue where
  | null : JValue
  | bool : Bool → JValue
  | num : Int → JValue
  | str : String → JValue
  | arr : List JValue → JValue
  | obj : List (String × JValue) → JValue

/-- JS property access `v[k]` for JSON-derived values: `none` is `undefined`.
Objects take the last binding of a duplicated key, as `JSON.parse` does. -/
def jget (v : JValue) (k : String) : Option JValue :=
  match v with
  | .obj fs => fs.foldl (fun acc p => if p.1 = k then some p.2 else acc) none
  | _ => none

/-- JS truthiness of a JSON-derived value. -/
def truthy : JValue → Bool
  | .null => false
  | .bool b => b
  | .num n => !(n == 0)
  | .str s => !(s == "")
  | .arr _ => true
  | .obj _ => true

mutual
/-- JS `String(v)` on a JSON-derived value. -/
def jsToString : JValue → String
  | .null => "null"
  | .bool b => if b then "true" else "false"
  | .num n => intDecString n
  | .str s => s
  | .arr xs => jsToStringArr xs
  | .obj _ => "[object Object]"

/-- `Array.prototype.toString`: elements joined by `","`, `null` as `""`. -/
def jsToStringArr : List JValue → String
  | [] => ""
  | [x] => match x with
    | .null => ""
    | x => jsToString x
  | x :: xs =>
    (match x with
      | .null => ""
      | x => jsToString x) ++ "," ++ jsToStringArr xs
end

/-- The octal digit class `[0-7]` of `0o` literals. -/
def isOctDigitCh (c : Char) : Bool :=
  48 ≤ c.toNat && c.toNat ≤ 55

/-- The binary digit class `[01]` of `0b` literals. -/
def isBinDigitCh (c : Char) : Bool :=
  c.toNat == 48 || c.toNat == 49

/-- Value of a hex digit list (a `0x` literal body). -/
def natOfHexDigits (cs : List Char) : Nat :=
  cs.foldl (fun n c => n * 16 + hexDigitVal c) 0

/-- Value of an octal digit list (a `0o` literal body). -/
def natOfOctDigits (cs : List Char) : Nat :=
  cs.foldl (fun n c => n * 8 + (c.toNat - 48)) 0

/-- Value of a binary digit list (a `0b` literal body). -/
def natOfBinDigits (cs : List Char) : Nat :=
  cs.foldl (fun n c => n * 2 + (c.toNat - 48)) 0

/-- A non-`NaN` result of JS `Number()` as the integer model carries it: an
exact integer, or one of the two infinities (which `Number()` yields for the
`Infinity` literal). -/
inductive JsNum where
  | fin : Int → JsNum
  | posInf : JsNum
  | negInf : JsNum
deriving DecidableEq, Repr

/-- The `ExponentPart` of a decimal literal after the `e`/`E`: an optionally
signed nonempty digit string. -/
def parseExponent (cs : List Char) : Option Int :=
  match cs with
  | '+' :: ds => if ds ≠ [] ∧ ds.all isDigitCh then some (natOfDigits ds) else none
  | '-' :: ds => if ds ≠ [] ∧ ds.all isDigitCh then some (-(natOfDigits ds : Int)) else none
  | ds => if ds ≠ [] ∧ ds.all isDigitCh then some (natOfDigits ds) else none

/-- `StrUnsignedDecimalLiteral` without the `Infinity` row: digits with an
optional point fraction and an optional exponent, where the point needs a
digit on at least one side, consuming the whole list. Returns the value `m`
of the concatenated integer-and-fraction digits, the fraction length `f` and
the exponent `ex`; the value of the literal is `m * 10 ^ (ex - f)`. -/
def parseUnsignedDec (cs : List Char) : Option (Nat × Nat × Int) :=
  let ip := cs.takeWhile isDigitCh
  match cs.dropWhile isDigitCh with
  | [] => if ip = [] then none else some (natOfDigits ip, 0, 0)
  | '.' :: r2 =>
    let fp := r2.takeWhile isDigitCh
    if ip = [] ∧ fp = [] then none
    else
      match r2.dropWhile isDigitCh with
      | [] => some (natOfDigits (ip ++ fp), fp.length, 0)
      | e :: r4 =>
        if e = 'e' ∨ e = 'E' then
          match parseExponent r4 with
          | some ex => some (natOfDigits (ip ++ fp), fp.length, ex)
          | none => none
        else none
  | e :: r4 =>
    if ip ≠ [] ∧ (e = 'e' ∨ e = 'E') then
      match parseExponent r4 with
      | some ex => some (natOfDigits ip, 0, ex)
      | none => none
    else none

/-- Value of a signed decimal literal, `± (m * 10 ^ (ex - f))`, in the integer
model: exact whenever the mathematical value is an integer; `none` when the
value is fractional, the one boundary of the model (see `jsStringToNumber`). -/
def decValueToJsNum (neg : Bool) (m f : Nat) (ex : Int) : Option JsNum :=
  let scale := ex - (f : Int)
  if 0 ≤ scale then
    some (.fin ((if neg then -1 else 1) * (m : Int) * (10 : Int) ^ scale.toNat))
  else
    let d := (10 : Nat) ^ (-scale).toNat
    if m % d = 0 then some (.fin ((if neg then -1 else 1) * ((m / d : Nat) : Int)))
    else none

/-- The part of `StrDecimalLiteral` after an optional sign: the literal
`Infinity`, or an unsigned decimal literal. -/
def parseSignedPart (neg : Bool) (cs : List Char) : Option JsNum :=
  if cs = "Infinity".data then some (if neg then .negInf else .posInf)
  else
    match parseUnsignedDec cs with
    | some (m, f, ex) => decValueToJsNum neg m f ex
    | none => none

/-- JS `Number(s)` on a string, the `StringNumericLiteral` grammar; `none` is
`NaN`. Trim; empty is `0`; an unsigned `0x`/`0X`, `0o`/`0O` or `0b`/`0B`
integer literal is its value; otherwise an optionally signed `Infinity` or
decimal literal with optional fraction and exponent. The boundary of the
integer model: a valid literal whose value is not an integer (such as `".5"`)
is mapped to `none`, and a finite value beyond float range stays exact rather
than rounding to an infinity (the downstream `[0, 999999]` clamp is unaffected
by that rounding). Every integer-valued literal, such as `"1e3"`, `"0x10"` or
`"12.50e1"`, and both infinities are converted exactly. -/
def jsStringToNumber (s : String) : Option JsNum :=
  match jsTrimL s.data with
  | [] => some (.fin 0)
  | '0' :: c :: ds =>
    if c = 'x' ∨ c = 'X' then
      if ds ≠ [] ∧ ds.all isHexDigitCh then some (.fin (natOfHexDigits ds)) else none
    else if c = 'o' ∨ c = 'O' then
      if ds ≠ [] ∧ ds.all isOctDigitCh then some (.fin (natOfOctDigits ds)) else none
    else if c = 'b' ∨ c = 'B' then
      if ds ≠ [] ∧ ds.all isBinDigitCh then some (.fin (natOfBinDigits ds)) else none
    else parseSignedPart false ('0' :: c :: ds)
  | '+' :: cs => parseSignedPart false cs
  | '-' :: cs => parseSignedPart true cs
  | cs => parseSignedPart false cs

/-- JS `Number(v)` on a JSON-derived value; `none` is `NaN`. Arrays convert
through their string form (ToPrimitive), plain objects give `NaN`. -/
def jsToNumber : JValue → Option JsNum
  | .null => some (.fin 0)
  | .bool b => some (.fin (if b then 1 else 0))
  | .num n => some (.fin n)
  | .str s => jsStringToNumber s
  | .arr xs => jsStringToNumber (jsToStringArr xs)
  | .obj _ => none

/-- `Number(v) || 0`: `NaN` (and `0` itself, which is falsy) collapse to `0`;
an absent field (`undefined`) converts to `NaN`, so it also gives `0`. -/
def numOr0 (v : Option JValue) : JsNum :=
  match v with
  | none => .fin 0
  | some w => (jsToNumber w).getD (.fin 0)

/-- `clamp(n, a, b)` = `Math.max(a, Math.min(b, n))` evaluated on a possibly
infinite JS number: `min(b, posInf) = b` and `min(b, negInf) = negInf`,
`max(a, negInf) = a`. -/
def jsClampNum (n : JsNum) (a b : Int) : Int :=
  match n with
  | .fin m => jsClamp m a b
  | .posInf => max a b
  | .negInf => a

/-- `v || d` on an optional field value: the default replaces `undefined` and
falsy values. -/
def orDefault (v : Option JValue) (d : JValue) : JValue :=
  match v with
  | none => d
  | some w => if truthy w then w else d

/-- Errors the load handler can catch. `formatError` is
`new Error('Unknown JSON format')`; `typeError` is the `TypeError` thrown by a
property access on `null`; `syntaxError` stands for a `JSON.parse` failure. -/
inductive DecErr where
  | formatError : DecErr
  | typeError : DecErr
  | syntaxError : DecErr
deriving DecidableEq, Repr

/-- The per-element coercion of the JSON decoder (source lines 479–484),
without the id:
`name: String(x.name || '')`, `index: clamp(Number(x.index) || 0, 0, 999999)`,
`hex: normalizeHex(String(x.hex || '#000000'))`. Property access on a `null`
element throws `TypeError`. -/
def decodeItem (x : JValue) : Except DecErr RawItem :=
  match x with
  | .null => .error .typeError
  | x =>
    .ok { name := jsToString (orDefault (jget x "name") (.str ""))
          index := jsClampNum (numOr0 (jget x "index")) 0 999999
          hex := normalizeHex (jsToString (orDefault (jget x "hex") (.str "#000000"))) }

/-- `data.items.map(x => ({ id: makeId(), ... }))`: left to right, a throw
aborts the whole map. `ids k` is the `k`-th `makeId()` result. -/
def decodeItems (ids : Nat → String) : Nat → List JValue → Except DecErr (List PaletteItem)
  | _, [] => .ok []
  | k, x :: xs =>
    match decodeItem x with
    | .error e => .error e
    | .ok it =>
      match decodeItems ids (k + 1) xs with
      | .error e => .error e
      | .ok its =>
        .ok ({ id := ids k, name := it.name, index := it.index, hex := it.hex } :: its)

/-- `Array.isArray` on an optional field value. -/
def isArrOpt : Option JValue → Bool
  | some (.arr _) => true
  | _ => false

/-- The `items` array of the document (only used under `isArrOpt`). -/
def getArrOpt : Option JValue → List JValue
  | some (.arr xs) => xs
  | _ => []

/-- `data.kind === 'palette.v1'`. -/
def kindIsPaletteV1 (v : JValue) : Bool :=
  match jget v "kind" with
  | some (.str s) => s == "palette.v1"
  | _ => false

/-- The JSON branch of the `fileInput` load handler (source lines 477–490):
guard `data && data.kind === 'palette.v1' && Array.isArray(data.items)`, then
coerce each element; otherwise `throw new Error('Unknown JSON format')`. -/
def decodePalette (v : JValue) (ids : Nat → String) : Except DecErr (List PaletteItem) :=
  if truthy v && kindIsPaletteV1 v && isArrOpt (jget v "items") then
    decodeItems ids 0 (getArrOpt (jget v "items"))
  else
    .error .formatError

/-- The element `x => ({ name: x.name, index: x.index, hex: x.hex })` the JSON
encoder emits per item. -/
def encItemJson (x : PaletteItem) : JValue :=
  .obj [("name", .str x.name), ("index", .num x.index), ("hex", .str x.hex)]

/-- The JSON document the `btnSave` handler builds (source lines 443–449):
`{ kind: 'palette.v1', items: sorted triples }`. (`JSON.stringify` and
`JSON.parse` are the runtime's, not repository code; the document is the
interface.) -/
def encodePaletteV1 (items : List PaletteItem) : JValue :=
  .obj [("kind", .str "palette.v1"),
        ("items", .arr ((sortByIndex items).map encItemJson))]

/-- The decode outcome of one `fileInput` change event: `.gpl` files go
through `parseGpl` (total), anything else through `JSON.parse`
(`parsed = none` models a parse failure) and the palette.v1 decoder. -/
def decodeOutcome (ids : Nat → String) (isGpl : Bool) (text : String)
    (parsed : Option JValue) : Except DecErr (List PaletteItem) :=
  if isGpl then .ok (loadGpl ids 0 (parseGpl text))
  else
    match parsed with
    | none => .error .syntaxError
    | some v => decodePalette v ids

/-- The full `fileInput` change handler (source lines 461–494): `items` is
reassigned only after a complete new collection was built; any throw lands in
the `catch`, which only sets a status message. -/
def handleFileLoad (prior : List PaletteItem) (ids : Nat → String) (isGpl : Bool)
    (text : String) (parsed : Option JValue) : List PaletteItem :=
  if isGpl then loadGpl ids 0 (parseGpl text)
  else
    match parsed with
    | none => prior
    | some v =>
      match decodePalette v ids with
      | .ok l => l
      | .error _ => prior

/-! ## PaletteStore -/

/-- Update the first item whose `index` matches, in place; `none` if there is
no match (`items.find(x => x.index === index)` plus the two field writes). -/
def updateFirst (index : Int) (name hex : String) :
    List PaletteItem → Option (List PaletteItem)
  | [] => none
  | x :: xs =>
    if x.index = index then
      some ({ id := x.id, name := name, index := x.index, hex := hex } :: xs)
    else
      (updateFirst index name hex xs).map (x :: ·)

/-- `addOrUpdate` from the source (lines 378–396), on the store collection:
normalize the hex, overwrite the first item with a matching `index` in place,
else append a fresh item. The returned flag is true when an existing item was
updated (the `Updated index …` status branch). -/
def addOrUpdate (its : List PaletteItem) (newId name : String) (index : Int)
    (hexRaw : String) : List PaletteItem × Bool :=
  let hex := normalizeHex hexRaw
  match updateFirst index name hex its with
  | some l => (l, true)
  | none => (its ++ [{ id := newId, name := name, index := index, hex := hex }], false)

/-! ## GridLayout (`renderPng`, source lines 118–134) -/

/-- `cols = Math.max(1, rowLen)`. -/
def gridCols (rowLen : Nat) : Nat := max 1 rowLen

/-- `rows = Math.max(1, Math.ceil(items.length / cols))`. -/
def gridRows (count rowLen : Nat) : Nat :=
  max 1 ((count + (gridCols rowLen - 1)) / gridCols rowLen)

/-- `canvas.width = cols * swW + Math.max(0, cols - 1) * gapH`. -/
def canvasW (rowLen swW gapH : Nat) : Nat :=
  gridCols rowLen * swW + max 0 (gridCols rowLen - 1) * gapH

/-- `canvas.height = rows * swH + Math.max(0, rows - 1) * gapV`. -/
def canvasH (count rowLen swH gapV : Nat) : Nat :=
  gridRows count rowLen * swH + max 0 (gridRows count rowLen - 1) * gapV

/-- `x = (i % cols) * (swW + gapH)`. -/
def cellX (i rowLen swW gapH : Nat) : Nat :=
  i % gridCols rowLen * (swW + gapH)

/-- `y = Math.floor(i / cols) * (swH + gapV)`. -/
def cellY (i rowLen swH gapV : Nat) : Nat :=
  i / gridCols rowLen * (swH + gapV)

/-! ## Specification-side predicates -/

/-- An uppercase hex digit (`[0-9A-F]`). -/
def isUpperHexCh (c : Char) : Bool :=
  isDigitCh c || (65 ≤ c.toNat && c.toNat ≤ 70)

/-- Canonical hex form: `#` followed by exactly six uppercase hex digits. -/
def isCanonHex (s : String) : Bool :=
  match s.data with
  | '#' :: rest => rest.length == 6 && rest.all isUpperHexCh
  | _ => false

/-- A well-formed `palette.v1` document: an object whose `kind` field is the
string `"palette.v1"` and whose `items` field is an array. -/
def IsPaletteDoc (v : JValue) : Prop :=
  (∃ fs, v = JValue.obj fs) ∧
  jget v "kind" = some (JValue.str "palette.v1") ∧
  ∃ xs, jget v "items" = some (JValue.arr xs)

/-- The `(name, index, hex)` triple of an item. -/
def tripleOf (it : PaletteItem) : String × Int × String :=
  (it.name, it.index, it.hex)

/-- Invariant of every record `parseGpl` produces: a nonempty, trimmed,
line-terminator-free name, and a hex string built from three byte values. -/
def RecGood (rec : RawItem) : Prop :=
  rec.name ≠ "" ∧
  jsTrimL rec.name.data = rec.name.data ∧
  (∀ c ∈ rec.name.data, isLineTerm c = false) ∧
  ∃ r g b, r ≤ 255 ∧ g ≤ 255 ∧ b ≤ 255 ∧ rec.hex = gplHexOf r g b

/-- Whitespace-collapsed form: every whitespace character is a plain space and
no two whitespace characters are adjacent (the image of `replace(/\s+/g,' ')`). -/
def WsNormal (l : List Char) : Prop :=
  (∀ c ∈ l, isJsWs c = true → c = ' ') ∧
  List.Chain' (fun a b => ¬(isJsWs a = true ∧ isJsWs b = true)) l

/-- What the name part of an emitted GPL line satisfies: nonempty, no leading
or trailing whitespace, no line terminators, whitespace-collapsed. -/
def NmGood (nm : List Char) : Prop :=
  nm ≠ [] ∧
  (∀ h, nm.head? = some h → isJsWs h = false) ∧
  (∀ h, nm.getLast? = some h → isJsWs h = false) ∧
  (∀ c ∈ nm, isLineTerm c = false) ∧
  WsNormal nm

/-- The characters of the GPL line for channel values `r g b` and name `nm`
(what `gplLineOf` produces once the hex round trip is unfolded). -/
def lineChars (r g b : Nat) (nm : List Char) : List Char :=
  padTo3 (natDecDigits r) ++ ' ' :: padTo3 (natDecDigits g) ++
    ' ' :: padTo3 (natDecDigits b) ++ '\t' :: nm

/-- The GPL line of a raw record (what `gplLineOf` emits for the stored item
bearing this record's name and hex; the line does not depend on id or index). -/
def rawLineOf (rec : RawItem) : List Char :=
  gplLineOf { id := "", name := rec.name, index := rec.index, hex := rec.hex }

/-- The triple-plus-name match that re-parsing an emitted GPL line yields. -/
def rawMatchOf (rec : RawItem) : Nat × Nat × Nat × List Char :=
  ((hexToRgb rec.hex).1, (hexToRgb rec.hex).2.1, (hexToRgb rec.hex).2.2,
    jsTrimL (collapseWsL rec.name.data))

/-- The record produced by re-parsing an emitted GPL line: the name is
whitespace-collapsed and trimmed, index and hex are unchanged. -/
def collapsedRec (rec : RawItem) : RawItem :=
  { name := String.mk (jsTrimL (collapseWsL rec.name.data)),
    index := rec.index, hex := rec.hex }

/-- Whether a JSON value is a text value. -/
def isStrVal : JValue → Bool
  | .str _ => true
  | _ => false

/-- Whether a JSON value is a number value. -/
def isNumVal : JValue → Bool
  | .num _ => true
  | _ => false

/-- The items the JSON decoder produces from already-canonical encoder output:
each item gets the next fresh id, all other fields are copied. -/
def attachIdsPal (ids : Nat → String) : Nat → List PaletteItem → List PaletteItem
  | _, [] => []
  | k, it :: rest =>
    { id := ids k, name := it.name, index := it.index, hex := it.hex } ::
      attachIdsPal ids (k + 1) rest

/-! ## Basic lemmas: strings, classes, clamping -/

theorem strMk_data (s : String) : String.mk s.data = s := by
  cases s
  rfl

theorem char_toNat_ofNat {n : Nat} (h : n.isValidChar) : (Char.ofNat n).toNat = n := by
  simp [Char.ofNat, dif_pos h, Char.ofNatAux, Char.toNat, UInt32.toNat, UInt32.ofNat',
    BitVec.toNat_ofNat]

theorem char_toNat_inj {a b : Char} (h : a.toNat = b.toNat) : a = b := by
  apply Char.ext
  exact UInt32.toNat.inj h

theorem jsClamp_of_mem {n a b : Int} (h1 : a ≤ n) (h2 : n ≤ b) : jsClamp n a b = n := by
  simp only [jsClamp, Int.max_def, Int.min_def]
  split_ifs <;> omega

theorem jsClamp_byte (n : Nat) : (jsClamp (Int.ofNat n) 0 255).toNat = min n 255 := by
  simp only [jsClamp, Int.max_def, Int.min_def, Int.ofNat_eq_coe]
  split_ifs <;> omega

theorem jsClamp_byte_of_le {n : Nat} (h : n ≤ 255) :
    (jsClamp (Int.ofNat n) 0 255).toNat = n := by
  rw [jsClamp_byte, Nat.min_eq_left h]

theorem not_ws_of_digit {c : Char} (h : isDigitCh c = true) : isJsWs c = false := by
  simp only [isDigitCh, Bool.and_eq_true, decide_eq_true_eq] at h
  simp only [isJsWs, Bool.or_eq_false_iff, beq_eq_false_iff_ne, ne_eq,
    Bool.and_eq_false_iff, decide_eq_false_iff_not, not_le]
  omega

theorem ws_of_term {c : Char} (h : isLineTerm c = true) : isJsWs c = true := by
  simp only [isLineTerm, Bool.or_eq_true, beq_iff_eq] at h
  simp only [isJsWs, Bool.or_eq_true, beq_iff_eq, Bool.and_eq_true, decide_eq_true_eq]
  omega

theorem not_term_of_not_ws {c : Char} (h : isJsWs c = false) : isLineTerm c = false := by
  cases ht : isLineTerm c
  · rfl
  · rw [ws_of_term ht] at h
    cases h

theorem upperHex_not_ws {c : Char} (h : isUpperHexCh c = true) : isJsWs c = false := by
  simp only [isUpperHexCh, isDigitCh, Bool.or_eq_true, Bool.and_eq_true,
    decide_eq_true_eq] at h
  simp only [isJsWs, Bool.or_eq_false_iff, beq_eq_false_iff_ne, ne_eq,
    Bool.and_eq_false_iff, decide_eq_false_iff_not, not_le]
  omega

theorem upperHex_isHex {c : Char} (h : isUpperHexCh c = true) : isHexDigitCh c = true := by
  simp only [isUpperHexCh, isDigitCh, Bool.or_eq_true, Bool.and_eq_true,
    decide_eq_true_eq] at h
  simp only [isHexDigitCh, isDigitCh, Bool.or_eq_true, Bool.and_eq_true,
    decide_eq_true_eq]
  omega

theorem asciiUpper_eq_self {c : Char} (h : c.toNat < 97) : asciiUpper c = c := by
  unfold asciiUpper
  rw [if_neg]
  omega

theorem upperHex_toNat_lt {c : Char} (h : isUpperHexCh c = true) : c.toNat < 97 := by
  simp only [isUpperHexCh, isDigitCh, Bool.or_eq_true, Bool.and_eq_true,
    decide_eq_true_eq] at h
  omega

theorem asciiUpper_hex {c : Char} (h : isHexDigitCh c = true) :
    isUpperHexCh (asciiUpper c) = true := by
  simp only [isHexDigitCh, isDigitCh, Bool.or_eq_true, Bool.and_eq_true,
    decide_eq_true_eq] at h
  rcases h with (h | h) | h
  · rw [asciiUpper_eq_self (by omega)]
    simp only [isUpperHexCh, isDigitCh, Bool.or_eq_true, Bool.and_eq_true,
      decide_eq_true_eq]
    omega
  · have hv : (c.toNat - 32).isValidChar := by
      left
      omega
    unfold asciiUpper
    rw [if_pos (by omega)]
    simp only [isUpperHexCh, isDigitCh, Bool.or_eq_true, Bool.and_eq_true,
      decide_eq_true_eq, char_toNat_ofNat hv]
    omega
  · rw [asciiUpper_eq_self (by omega)]
    simp only [isUpperHexCh, isDigitCh, Bool.or_eq_true, Bool.and_eq_true,
      decide_eq_true_eq]
    omega

theorem map_id_of_fix {f : Char → Char} :
    ∀ l : List Char, (∀ c ∈ l, f c = c) → l.map f = l
  | [], _ => rfl
  | c :: cs, h => by
    simp only [List.map_cons, List.cons.injEq]
    exact ⟨h c (by simp), map_id_of_fix cs fun d hd => h d (by simp [hd])⟩

/-! ## Lemmas about trimming and whitespace collapsing -/

theorem head?_dropWhile_false (p : Char → Bool) (l : List Char) :
    ∀ h, (l.dropWhile p).head? = some h → p h = false := by
  intro h hh
  have hx := List.head?_dropWhile_not p l
  rw [hh] at hx
  exact hx

theorem dropWhile_eq_self_of_head {p : Char → Bool} {m : List Char}
    (hm : ∀ h, m.head? = some h → p h = false) : m.dropWhile p = m := by
  cases m with
  | nil => rfl
  | cons c cs =>
    exact List.dropWhile_cons_of_neg (by simp [hm c rfl])

theorem dropWhile_append_all {p : Char → Bool} {l m : List Char}
    (hl : ∀ c ∈ l, p c = true) : (l ++ m).dropWhile p = m.dropWhile p := by
  induction l with
  | nil => rfl
  | cons c cs ih =>
    rw [List.cons_append, List.dropWhile_cons_of_pos (hl c (by simp))]
    exact ih fun d hd => hl d (by simp [hd])

theorem takeWhile_all_append {p : Char → Bool} {l m : List Char}
    (hl : ∀ c ∈ l, p c = true) (hm : ∀ h, m.head? = some h → p h = false) :
    (l ++ m).takeWhile p = l ∧ (l ++ m).dropWhile p = m := by
  induction l with
  | nil =>
    constructor
    · cases m with
      | nil => rfl
      | cons c cs => exact List.takeWhile_cons_of_neg (by simp [hm c rfl])
    · exact dropWhile_eq_self_of_head hm
  | cons c cs ih =>
    have ih2 := ih fun d hd => hl d (by simp [hd])
    constructor
    · rw [List.cons_append, List.takeWhile_cons_of_pos (hl c (by simp)), ih2.1]
    · rw [List.cons_append, List.dropWhile_cons_of_pos (hl c (by simp)), ih2.2]

theorem dropWhile_nil_all {p : Char → Bool} :
    ∀ {l : List Char}, l.dropWhile p = [] → ∀ c ∈ l, p c = true := by
  intro l
  induction l with
  | nil => intro _ c hc; cases hc
  | cons a as ih =>
    intro h c hc
    by_cases ha : p a = true
    · rw [List.dropWhile_cons_of_pos ha] at h
      rcases List.mem_cons.mp hc with rfl | hc2
      · exact ha
      · exact ih h c hc2
    · rw [List.dropWhile_cons_of_neg ha] at h
      cases h

theorem getLast?_of_suffix {l₁ l₂ : List Char} (h : l₁ <:+ l₂) (hne : l₁ ≠ []) :
    l₁.getLast? = l₂.getLast? := by
  obtain ⟨t, rfl⟩ := h
  exact (List.getLast?_append_of_ne_nil _ hne).symm

theorem jsTrimL_id {l : List Char}
    (h1 : ∀ h, l.head? = some h → isJsWs h = false)
    (h2 : ∀ h, l.getLast? = some h → isJsWs h = false) : jsTrimL l = l := by
  unfold jsTrimL
  rw [dropWhile_eq_self_of_head h1]
  rw [dropWhile_eq_self_of_head (by
    intro h hh
    rw [List.head?_reverse] at hh
    exact h2 h hh)]
  exact List.reverse_reverse l

theorem jsTrimL_head {l : List Char} :
    ∀ h, (jsTrimL l).head? = some h → isJsWs h = false := by
  intro h hh
  unfold jsTrimL at hh
  rw [List.head?_reverse] at hh
  set b := (l.dropWhile isJsWs).reverse with hb
  have hne : b.dropWhile isJsWs ≠ [] := by
    intro hnil
    rw [hnil] at hh
    cases hh
  rw [getLast?_of_suffix (List.dropWhile_suffix _) hne] at hh
  rw [hb, List.getLast?_reverse] at hh
  exact head?_dropWhile_false _ _ h hh

theorem jsTrimL_last {l : List Char} :
    ∀ h, (jsTrimL l).getLast? = some h → isJsWs h = false := by
  intro h hh
  unfold jsTrimL at hh
  rw [List.getLast?_reverse] at hh
  exact head?_dropWhile_false _ _ h hh

theorem jsTrimL_idem (l : List Char) : jsTrimL (jsTrimL l) = jsTrimL l :=
  jsTrimL_id jsTrimL_head jsTrimL_last

theorem jsTrimL_id_of_all {l : List Char} (h : ∀ c ∈ l, isJsWs c = false) :
    jsTrimL l = l :=
  jsTrimL_id
    (fun c hc => h c (by cases l with
      | nil => cases hc
      | cons a as => rw [List.head?_cons] at hc; cases hc; simp))
    (fun c hc => h c (List.mem_of_mem_getLast? hc))

theorem jsTrimL_all_ws_of_nil {l : List Char} (h : jsTrimL l = []) :
    ∀ c ∈ l, isJsWs c = true := by
  intro c hc
  unfold jsTrimL at h
  rw [List.reverse_eq_nil_iff] at h
  have h2 : ∀ d ∈ (l.dropWhile isJsWs).reverse, isJsWs d = true := dropWhile_nil_all h
  have h3 : ∀ d ∈ l.dropWhile isJsWs, isJsWs d = true := by
    intro d hd
    exact h2 d (List.mem_reverse.mpr hd)
  have hsplit : l.takeWhile isJsWs ++ l.dropWhile isJsWs = l :=
    List.takeWhile_append_dropWhile isJsWs l
  rcases List.mem_append.mp (by rw [hsplit]; exact hc) with hm | hm
  · exact List.mem_takeWhile_imp hm
  · exact h3 c hm

theorem mem_of_mem_jsTrimL {c : Char} {l : List Char} (h : c ∈ jsTrimL l) : c ∈ l := by
  unfold jsTrimL at h
  rw [List.mem_reverse] at h
  have h2 := (List.dropWhile_suffix isJsWs).mem h
  rw [List.mem_reverse] at h2
  exact (List.dropWhile_suffix isJsWs).mem h2

theorem jsTrimL_ne_nil {l : List Char} {c : Char} (hc : c ∈ l) (hw : isJsWs c = false) :
    jsTrimL l ≠ [] := by
  intro h
  rw [jsTrimL_all_ws_of_nil h c hc] at hw
  cases hw

theorem jsTrimL_ws_append {w l : List Char} (hw : ∀ c ∈ w, isJsWs c = true) :
    jsTrimL (w ++ l) = jsTrimL l := by
  unfold jsTrimL
  rw [dropWhile_append_all hw]

/-! ### WsNormal and collapsing -/

theorem wsNormal_nil : WsNormal [] := ⟨by simp, List.chain'_nil⟩

theorem wsNormal_cons {c : Char} {l : List Char} :
    WsNormal (c :: l) ↔
      (isJsWs c = true → c = ' ') ∧
      (∀ h, l.head? = some h → ¬(isJsWs c = true ∧ isJsWs h = true)) ∧
      WsNormal l := by
  unfold WsNormal
  rw [List.chain'_cons']
  constructor
  · rintro ⟨hm, hh, hch⟩
    exact ⟨fun hw => hm c (by simp) hw,
      fun h hh2 => hh h hh2,
      fun d hd hw => hm d (by simp [hd]) hw, hch⟩
  · rintro ⟨h1, h2, h3, h4⟩
    refine ⟨?_, fun y hy => h2 y hy, h4⟩
    intro d hd hw
    rcases List.mem_cons.mp hd with rfl | hd2
    · exact h1 hw
    · exact h3 d hd2 hw

theorem wsNormal_tail {c : Char} {l : List Char} (h : WsNormal (c :: l)) : WsNormal l :=
  (wsNormal_cons.mp h).2.2

theorem wsNormal_append_right {l m : List Char} (h : WsNormal (l ++ m)) : WsNormal m :=
  ⟨fun c hc => h.1 c (List.mem_append.mpr (Or.inr hc)), h.2.right_of_append⟩

theorem wsNormal_append_left {l m : List Char} (h : WsNormal (l ++ m)) : WsNormal l :=
  ⟨fun c hc => h.1 c (List.mem_append.mpr (Or.inl hc)), h.2.left_of_append⟩

theorem wsNormal_reverse {l : List Char} (h : WsNormal l) : WsNormal l.reverse := by
  refine ⟨fun c hc => h.1 c (List.mem_reverse.mp hc), ?_⟩
  rw [List.chain'_reverse]
  exact h.2.imp fun a b hab => fun ⟨x, y⟩ => hab ⟨y, x⟩

theorem wsNormal_dropWhile {p : Char → Bool} {l : List Char} (h : WsNormal l) :
    WsNormal (l.dropWhile p) := by
  obtain ⟨t, ht⟩ := List.dropWhile_suffix (l := l) p
  rw [← ht] at h
  exact wsNormal_append_right h

theorem wsNormal_jsTrimL {l : List Char} (h : WsNormal l) : WsNormal (jsTrimL l) := by
  unfold jsTrimL
  exact wsNormal_reverse (wsNormal_dropWhile (wsNormal_reverse (wsNormal_dropWhile h)))

theorem collapseWsAux_true_cons_ws {c : Char} {cs : List Char} (h : isJsWs c = true) :
    collapseWsAux true (c :: cs) = collapseWsAux true cs := by
  simp [collapseWsAux, h]

theorem collapseWsAux_false_cons_ws {c : Char} {cs : List Char} (h : isJsWs c = true) :
    collapseWsAux false (c :: cs) = ' ' :: collapseWsAux true cs := by
  simp [collapseWsAux, h]

theorem collapseWsAux_cons_nonws {b : Bool} {c : Char} {cs : List Char}
    (h : isJsWs c = false) : collapseWsAux b (c :: cs) = c :: collapseWsAux false cs := by
  cases b <;> simp [collapseWsAux, h]

theorem collapse_aux_props :
    ∀ l : List Char,
      WsNormal (collapseWsAux false l) ∧ WsNormal (collapseWsAux true l) ∧
      (∀ h, (collapseWsAux true l).head? = some h → isJsWs h = false)
  | [] => ⟨wsNormal_nil, wsNormal_nil, by intro h hh; cases hh⟩
  | c :: cs => by
    obtain ⟨ih1, ih2, ih3⟩ := collapse_aux_props cs
    by_cases hw : isJsWs c = true
    · refine ⟨?_, ?_, ?_⟩
      · rw [collapseWsAux_false_cons_ws hw, wsNormal_cons]
        refine ⟨fun _ => rfl, ?_, ih2⟩
        intro h hh hand
        rw [ih3 h hh] at hand
        exact absurd hand.2 (by simp)
      · rw [collapseWsAux_true_cons_ws hw]
        exact ih2
      · intro h hh
        rw [collapseWsAux_true_cons_ws hw] at hh
        exact ih3 h hh
    · have hwf : isJsWs c = false := by simpa using hw
      have hcons : WsNormal (c :: collapseWsAux false cs) := by
        rw [wsNormal_cons]
        refine ⟨fun hws => absurd hws hw, ?_, ih1⟩
        intro h _ hand
        exact hw hand.1
      refine ⟨?_, ?_, ?_⟩
      · rw [collapseWsAux_cons_nonws hwf]; exact hcons
      · rw [collapseWsAux_cons_nonws hwf]; exact hcons
      · intro h hh
        rw [collapseWsAux_cons_nonws hwf, List.head?_cons] at hh
        cases hh
        exact hwf

theorem wsNormal_collapse (l : List Char) : WsNormal (collapseWsL l) :=
  (collapse_aux_props l).1

theorem collapse_true_eq_false_of_head {l : List Char}
    (h : ∀ hh, l.head? = some hh → isJsWs hh = false) :
    collapseWsAux true l = collapseWsAux false l := by
  cases l with
  | nil => rfl
  | cons c cs =>
    rw [collapseWsAux_cons_nonws (h c rfl), collapseWsAux_cons_nonws (h c rfl)]

theorem collapse_of_wsNormal : ∀ {l : List Char}, WsNormal l → collapseWsL l = l
  | [], _ => rfl
  | c :: cs, h => by
    obtain ⟨h1, h2, h3⟩ := wsNormal_cons.mp h
    show collapseWsAux false (c :: cs) = c :: cs
    by_cases hw : isJsWs c = true
    · have hc : c = ' ' := h1 hw
      rw [collapseWsAux_false_cons_ws hw]
      rw [collapse_true_eq_false_of_head (by
        intro hh hhh
        by_cases hws : isJsWs hh = true
        · exact absurd ⟨hw, hws⟩ (h2 hh hhh)
        · simpa using hws)]
      rw [show collapseWsAux false cs = collapseWsL cs from rfl, collapse_of_wsNormal h3, hc]
    · have hwf : isJsWs c = false := by simpa using hw
      rw [collapseWsAux_cons_nonws hwf]
      rw [show collapseWsAux false cs = collapseWsL cs from rfl, collapse_of_wsNormal h3]

theorem mem_collapse_aux {c : Char} :
    ∀ {l : List Char} {b : Bool}, c ∈ collapseWsAux b l → c = ' ' ∨ c ∈ l := by
  intro l
  induction l with
  | nil => intro b h; cases b <;> cases h
  | cons a as ih =>
    intro b h
    by_cases hw : isJsWs a = true
    · cases b with
      | true =>
        rw [collapseWsAux_true_cons_ws hw] at h
        rcases ih h with h2 | h2
        · exact Or.inl h2
        · exact Or.inr (by simp [h2])
      | false =>
        rw [collapseWsAux_false_cons_ws hw] at h
        rcases List.mem_cons.mp h with rfl | h2
        · exact Or.inl rfl
        · rcases ih h2 with h3 | h3
          · exact Or.inl h3
          · exact Or.inr (by simp [h3])
    · have hwf : isJsWs a = false := by simpa using hw
      rw [collapseWsAux_cons_nonws hwf] at h
      rcases List.mem_cons.mp h with rfl | h2
      · exact Or.inr (by simp)
      · rcases ih h2 with h3 | h3
        · exact Or.inl h3
        · exact Or.inr (by simp [h3])

theorem mem_collapse_aux_of_nonws {c : Char} (hw : isJsWs c = false) :
    ∀ {l : List Char} {b : Bool}, c ∈ l → c ∈ collapseWsAux b l := by
  intro l
  induction l with
  | nil => intro b h; cases h
  | cons a as ih =>
    intro b h
    rcases List.mem_cons.mp h with rfl | h2
    · rw [collapseWsAux_cons_nonws hw]
      simp
    · by_cases hwa : isJsWs a = true
      · cases b with
        | true =>
          rw [collapseWsAux_true_cons_ws hwa]
          exact ih h2
        | false =>
          rw [collapseWsAux_false_cons_ws hwa]
          exact List.mem_cons.mpr (Or.inr (ih h2))
      · rw [collapseWsAux_cons_nonws (by simpa using hwa)]
        exact List.mem_cons.mpr (Or.inr (ih h2))

theorem collapse_has_nonws {l : List Char} {c : Char} (hc : c ∈ l) (hw : isJsWs c = false) :
    c ∈ collapseWsL l :=
  mem_collapse_aux_of_nonws hw hc

/-! ## Lemmas about decimal digits -/

theorem digitChar10_toNat {d : Nat} (h : d < 10) : (digitChar10 d).toNat = 48 + d := by
  interval_cases d <;> decide

theorem isDigitCh_digitChar10 {d : Nat} (h : d < 10) : isDigitCh (digitChar10 d) = true := by
  interval_cases d <;> decide

theorem natOfDigits_append (l : List Char) (c : Char) :
    natOfDigits (l ++ [c]) = 10 * natOfDigits l + (c.toNat - 48) := by
  unfold natOfDigits
  rw [List.foldl_append]
  simp [Nat.mul_comm]

theorem natDecAux_ok :
    ∀ fuel n, n ≤ fuel →
      natOfDigits (natDecAux fuel n) = n ∧ natDecAux fuel n ≠ [] ∧
      ∀ c ∈ natDecAux fuel n, isDigitCh c = true := by
  intro fuel
  induction fuel with
  | zero =>
    intro n hn
    have : n = 0 := Nat.le_zero.mp hn
    subst this
    refine ⟨by decide, by decide, ?_⟩
    intro c hc
    rcases List.mem_singleton.mp hc with rfl
    decide
  | succ f ih =>
    intro n hn
    by_cases h10 : n < 10
    · simp only [natDecAux, if_pos h10]
      refine ⟨?_, by simp, ?_⟩
      · show natOfDigits [digitChar10 n] = n
        have : natOfDigits [digitChar10 n] = 10 * natOfDigits [] + ((digitChar10 n).toNat - 48) :=
          natOfDigits_append [] (digitChar10 n)
        rw [this, digitChar10_toNat h10]
        simp [natOfDigits]
      · intro c hc
        rcases List.mem_singleton.mp hc with rfl
        exact isDigitCh_digitChar10 h10
    · have hpos : 0 < n := by omega
      have hdiv : n / 10 ≤ f := by
        have := Nat.div_lt_self hpos (by norm_num : 1 < 10)
        omega
      obtain ⟨e1, e2, e3⟩ := ih (n / 10) hdiv
      simp only [natDecAux, if_neg h10]
      refine ⟨?_, by simp, ?_⟩
      · rw [natOfDigits_append, e1, digitChar10_toNat (Nat.mod_lt n (by norm_num))]
        omega
      · intro c hc
        rcases List.mem_append.mp hc with hm | hm
        · exact e3 c hm
        · rcases List.mem_singleton.mp hm with rfl
          exact isDigitCh_digitChar10 (Nat.mod_lt n (by norm_num))

theorem natOfDigits_natDecDigits (n : Nat) : natOfDigits (natDecDigits n) = n :=
  (natDecAux_ok n n le_rfl).1

theorem natDecDigits_ne_nil (n : Nat) : natDecDigits n ≠ [] :=
  (natDecAux_ok n n le_rfl).2.1

theorem natDecDigits_all_digit (n : Nat) : ∀ c ∈ natDecDigits n, isDigitCh c = true :=
  (natDecAux_ok n n le_rfl).2.2

/-! ## Lemmas about hex encoding -/

theorem upperHexChar_ok {d : Nat} (h : d < 16) :
    hexDigitVal (asciiUpper (hexDigitChar d)) = d ∧
    isUpperHexCh (asciiUpper (hexDigitChar d)) = true := by
  interval_cases d <;> exact ⟨by decide, by decide⟩

theorem gplHexOf_data (r g b : Nat) :
    (gplHexOf r g b).data =
      '#' :: (hexTwo r).map asciiUpper ++ (hexTwo g).map asciiUpper ++
        (hexTwo b).map asciiUpper := by
  show ((String.mk ('#' :: (hexTwo r ++ hexTwo g ++ hexTwo b))).data.map asciiUpper) = _
  simp [asciiUpper_eq_self (by decide : ('#' : Char).toNat < 97)]

theorem hexTwo_map_upper (v : Nat) (h : v ≤ 255) :
    (hexTwo v).map asciiUpper =
      [asciiUpper (hexDigitChar (v / 16)), asciiUpper (hexDigitChar (v % 16))] := by
  unfold hexTwo
  rw [Nat.mod_eq_of_lt (by omega : v / 16 < 16)]
  rfl

theorem isCanonHex_gplHexOf {r g b : Nat} (hr : r ≤ 255) (hg : g ≤ 255) (hb : b ≤ 255) :
    isCanonHex (gplHexOf r g b) = true := by
  unfold isCanonHex
  rw [gplHexOf_data, hexTwo_map_upper r hr, hexTwo_map_upper g hg, hexTwo_map_upper b hb]
  simp only [List.cons_append, List.nil_append]
  have hdig : ∀ v : Nat, v ≤ 255 →
      isUpperHexCh (asciiUpper (hexDigitChar (v / 16))) = true ∧
      isUpperHexCh (asciiUpper (hexDigitChar (v % 16))) = true := by
    intro v hv
    exact ⟨(upperHexChar_ok (by omega)).2, (upperHexChar_ok (Nat.mod_lt v (by norm_num))).2⟩
  simp [List.all_cons, (hdig r hr).1, (hdig r hr).2, (hdig g hg).1, (hdig g hg).2,
    (hdig b hb).1, (hdig b hb).2]

theorem canonHex_chars {s : String} (h : isCanonHex s = true) :
    ∃ rest, s.data = '#' :: rest ∧ rest.length = 6 ∧ ∀ c ∈ rest, isUpperHexCh c = true := by
  unfold isCanonHex at h
  split at h
  · next rest heq =>
    simp only [Bool.and_eq_true, beq_iff_eq, List.all_eq_true] at h
    exact ⟨rest, heq, h.1, h.2⟩
  · cases h

theorem normalizeHex_canon {s : String} (h : isCanonHex s = true) : normalizeHex s = s := by
  obtain ⟨rest, hd, hlen, hall⟩ := canonHex_chars h
  have hnil : ∀ c ∈ s.data, isJsWs c = false := by
    intro c hc
    rw [hd] at hc
    rcases List.mem_cons.mp hc with rfl | hc2
    · decide
    · exact upperHex_not_ws (hall c hc2)
  have htrim : jsTrim s = s := by
    unfold jsTrim
    rw [jsTrimL_id_of_all hnil, strMk_data]
  have hmatch : matchesHexPattern s = true := by
    unfold matchesHexPattern
    rw [hd]
    simp only [Bool.and_eq_true, beq_iff_eq, List.all_eq_true]
    exact ⟨hlen, fun c hc => upperHex_isHex (hall c hc)⟩
  have hupper : asciiUpperStr s = s := by
    unfold asciiUpperStr
    rw [map_id_of_fix s.data (by
      intro c hc
      rw [hd] at hc
      rcases List.mem_cons.mp hc with rfl | hc2
      · decide
      · exact asciiUpper_eq_self (upperHex_toNat_lt (hall c hc2)))]
  unfold normalizeHex
  rw [htrim, if_pos hmatch, hupper]

theorem hexToRgb_gplHexOf {r g b : Nat} (hr : r ≤ 255) (hg : g ≤ 255) (hb : b ≤ 255) :
    hexToRgb (gplHexOf r g b) = (r, g, b) := by
  unfold hexToRgb
  rw [normalizeHex_canon (isCanonHex_gplHexOf hr hg hb)]
  rw [gplHexOf_data, hexTwo_map_upper r hr, hexTwo_map_upper g hg, hexTwo_map_upper b hb]
  simp only [List.cons_append, List.nil_append]
  have e1 : hexDigitVal (asciiUpper (hexDigitChar (r / 16))) = r / 16 :=
    (upperHexChar_ok (by omega)).1
  have e2 : hexDigitVal (asciiUpper (hexDigitChar (r % 16))) = r % 16 :=
    (upperHexChar_ok (Nat.mod_lt r (by norm_num))).1
  have e3 : hexDigitVal (asciiUpper (hexDigitChar (g / 16))) = g / 16 :=
    (upperHexChar_ok (by omega)).1
  have e4 : hexDigitVal (asciiUpper (hexDigitChar (g % 16))) = g % 16 :=
    (upperHexChar_ok (Nat.mod_lt g (by norm_num))).1
  have e5 : hexDigitVal (asciiUpper (hexDigitChar (b / 16))) = b / 16 :=
    (upperHexChar_ok (by omega)).1
  have e6 : hexDigitVal (asciiUpper (hexDigitChar (b % 16))) = b % 16 :=
    (upperHexChar_ok (Nat.mod_lt b (by norm_num))).1
  simp only [e1, e2, e3, e4, e5, e6, Prod.mk.injEq]
  omega

theorem matchesHexPattern_chars {s : String} (h : matchesHexPattern s = true) :
    ∃ rest, s.data = '#' :: rest ∧ rest.length = 6 ∧ ∀ c ∈ rest, isHexDigitCh c = true := by
  unfold matchesHexPattern at h
  split at h
  · next rest heq =>
    simp only [Bool.and_eq_true, beq_iff_eq, List.all_eq_true] at h
    exact ⟨rest, heq, h.1, h.2⟩
  · cases h

theorem normalizeHex_canonical (s : String) : isCanonHex (normalizeHex s) = true := by
  unfold normalizeHex
  by_cases hm : matchesHexPattern (jsTrim s) = true
  · rw [if_pos hm]
    obtain ⟨rest, hd, hlen, hall⟩ := matchesHexPattern_chars hm
    unfold isCanonHex asciiUpperStr
    rw [hd]
    simp only [List.map_cons, asciiUpper_eq_self (by decide : ('#' : Char).toNat < 97)]
    simp only [Bool.and_eq_true, beq_iff_eq, List.all_eq_true, List.length_map]
    refine ⟨hlen, ?_⟩
    intro c hc
    rw [List.mem_map] at hc
    obtain ⟨d, hd2, rfl⟩ := hc
    exact asciiUpper_hex (hall d hd2)
  · rw [if_neg hm]
    decide

theorem normalizeHex_idem (s : String) : normalizeHex (normalizeHex s) = normalizeHex s :=
  normalizeHex_canon (normalizeHex_canonical s)

/-- C3 counterexample: `"#abcdef "` does not match `#` + 6 hex digits, yet
`normalizeHex` does not map it to `"#000000"` (it trims first). -/
theorem c3_normalizeHex_counterexample :
    matchesHexPattern "#abcdef " = false ∧ normalizeHex "#abcdef " ≠ "#000000" := by
  constructor
  · decide
  · decide

/-- C3 (amended): `normalizeHex` is total and idempotent; it first trims its
input, returns the trimmed input uppercased when the trimmed input matches
`#` + 6 hex digits (case-insensitive), and returns exactly `"#000000"` when
the trimmed input does not match. -/
theorem c3_normalizeHex_amended (s : String) :
    normalizeHex (normalizeHex s) = normalizeHex s ∧
    normalizeHex s =
      (if matchesHexPattern (jsTrim s) = true then asciiUpperStr (jsTrim s)
       else "#000000") :=
  ⟨normalizeHex_idem s, rfl⟩

/-! ## GridLayout lemmas (C9) -/

theorem gridCols_pos (rowLen : Nat) : 1 ≤ gridCols rowLen :=
  le_max_left 1 rowLen

theorem count_le_rows_mul_cols (count rowLen : Nat) :
    count ≤ gridRows count rowLen * gridCols rowLen := by
  set cols := gridCols rowLen with hcols
  have hpos : 0 < cols := gridCols_pos rowLen
  set q := (count + (cols - 1)) / cols with hq
  have hrows : q ≤ gridRows count rowLen := by
    rw [gridRows, ← hcols, ← hq]
    exact le_max_right 1 q
  have hqc : count ≤ q * cols := by
    have heq : cols * q + (count + (cols - 1)) % cols = count + (cols - 1) :=
      Nat.div_add_mod _ _
    have hm : (count + (cols - 1)) % cols < cols := Nat.mod_lt _ hpos
    rw [Nat.mul_comm]
    generalize cols * q = P at heq
    omega
  calc count ≤ q * cols := hqc
    _ ≤ gridRows count rowLen * cols := Nat.mul_le_mul_right cols hrows

theorem rows_minimal (count rowLen : Nat) (hc : 1 ≤ count) :
    (gridRows count rowLen - 1) * gridCols rowLen < count := by
  set cols := gridCols rowLen with hcols
  have hpos : 0 < cols := gridCols_pos rowLen
  set q := (count + (cols - 1)) / cols with hq
  have hq1 : 1 ≤ q := by
    rw [hq]
    rw [Nat.one_le_div_iff hpos]
    omega
  have hrows : gridRows count rowLen = q := by
    rw [gridRows, ← hcols, ← hq]
    exact Nat.max_eq_right hq1
  rw [hrows, Nat.sub_one_mul]
  have heq : cols * q + (count + (cols - 1)) % cols = count + (cols - 1) :=
    Nat.div_add_mod _ _
  have hm : (count + (cols - 1)) % cols < cols := Nat.mod_lt _ hpos
  rw [Nat.mul_comm]
  generalize cols * q = P at heq ⊢
  omega

/-- C9: the grid layout of `renderPng`: `cols = max(1, rowLen)`; `rows` is
`max(1, ⌈count / cols⌉)` (characterized by the two ceiling inequalities);
canvas dimensions and per-item cell positions follow the spec formulas; in
particular `rowLen = 3`, `count = 7` gives a 3×3 grid with item 4 at
`(swW + gapH, swH + gapV)`. -/
theorem c9_grid_layout (count rowLen swW swH gapH gapV i : Nat)
    (h1 : 1 ≤ rowLen) (h2 : 8 ≤ swW) (h3 : 8 ≤ swH) :
    gridCols rowLen = max 1 rowLen ∧
    1 ≤ gridRows count rowLen ∧
    count ≤ gridRows count rowLen * gridCols rowLen ∧
    (1 ≤ count → (gridRows count rowLen - 1) * gridCols rowLen < count) ∧
    canvasW rowLen swW gapH =
      gridCols rowLen * swW + max 0 (gridCols rowLen - 1) * gapH ∧
    canvasH count rowLen swH gapV =
      gridRows count rowLen * swH + max 0 (gridRows count rowLen - 1) * gapV ∧
    cellX i rowLen swW gapH = i % gridCols rowLen * (swW + gapH) ∧
    cellY i rowLen swH gapV = i / gridCols rowLen * (swH + gapV) ∧
    gridCols 3 = 3 ∧ gridRows 7 3 = 3 ∧
    cellX 4 3 swW gapH = swW + gapH ∧ cellY 4 3 swH gapV = swH + gapV := by
  refine ⟨rfl, le_max_left 1 _, count_le_rows_mul_cols count rowLen,
    rows_minimal count rowLen, rfl, rfl, rfl, rfl, by decide, by decide, ?_, ?_⟩
  · show 4 % gridCols 3 * (swW + gapH) = swW + gapH
    norm_num [gridCols]
  · show 4 / gridCols 3 * (swH + gapV) = swH + gapV
    norm_num [gridCols]

/-- C9 witness at `count = 7`, `rowLen = 3`, 94×62 swatches, gaps 2. -/
theorem c9_grid_layout_witness : 7 ≤ gridRows 7 3 * gridCols 3 ∧ cellX 4 3 94 2 = 96 := by
  obtain ⟨-, -, hle, -, -, -, -, -, -, -, hx, -⟩ :=
    c9_grid_layout 7 3 94 62 2 2 4 (by norm_num) (by norm_num) (by norm_num)
  exact ⟨hle, by rw [hx]⟩

/-! ## PaletteStore lemmas (C8, C10) -/

theorem exists_first_match (P : PaletteItem → Prop) [DecidablePred P] :
    ∀ {its : List PaletteItem}, (∃ x ∈ its, P x) →
      ∃ j, ∃ hj : j < its.length, P (its.get ⟨j, hj⟩) ∧
        ∀ m, ∀ hm : m < its.length, m < j → ¬P (its.get ⟨m, hm⟩) := by
  intro its
  induction its with
  | nil => rintro ⟨x, hx, -⟩; cases hx
  | cons a as ih =>
    intro h
    by_cases ha : P a
    · exact ⟨0, by simp, ha, fun m hm hlt => absurd hlt (by omega)⟩
    · have h2 : ∃ x ∈ as, P x := by
        obtain ⟨x, hx, hPx⟩ := h
        rcases List.mem_cons.mp hx with rfl | hx2
        · exact absurd hPx ha
        · exact ⟨x, hx2, hPx⟩
      obtain ⟨j, hj, hPj, hmin⟩ := ih h2
      refine ⟨j + 1, by simpa using Nat.succ_lt_succ hj, hPj, ?_⟩
      intro m hm hlt
      cases m with
      | zero => exact ha
      | succ m' =>
        exact hmin m' (by simpa using Nat.lt_of_succ_lt_succ hm) (by omega)

theorem updateFirst_spec (idx : Int) (nm hx : String) :
    ∀ (its : List PaletteItem) (j : Nat) (hj : j < its.length),
      (its.get ⟨j, hj⟩).index = idx →
      (∀ m, ∀ hm : m < its.length, m < j → (its.get ⟨m, hm⟩).index ≠ idx) →
      updateFirst idx nm hx its =
        some (its.set j { id := (its.get ⟨j, hj⟩).id, name := nm,
                          index := (its.get ⟨j, hj⟩).index, hex := hx }) := by
  intro its
  induction its with
  | nil => intro j hj; cases hj
  | cons a as ih =>
    intro j hj hji hmin
    cases j with
    | zero =>
      have hji0 : a.index = idx := hji
      show updateFirst idx nm hx (a :: as) = _
      unfold updateFirst
      rw [if_pos hji0]
      rfl
    | succ j' =>
      have hne : a.index ≠ idx := hmin 0 (by simp) (Nat.succ_pos j')
      show updateFirst idx nm hx (a :: as) = _
      unfold updateFirst
      rw [if_neg hne]
      have hj' : j' < as.length := Nat.lt_of_succ_lt_succ (by simpa using hj)
      have hrec := ih j' hj' hji
        (fun m hm hlt => hmin (m + 1) (by simpa using Nat.succ_lt_succ hm)
          (Nat.succ_lt_succ hlt))
      rw [hrec]
      rfl

theorem addOrUpdate_found {its : List PaletteItem} {nid nm hx : String} {i : Int}
    {l : List PaletteItem} (h : updateFirst i nm (normalizeHex hx) its = some l) :
    (addOrUpdate its nid nm i hx).1 = l := by
  unfold addOrUpdate
  simp only [h]

/-- C8: when the store already holds an item with index `i`, `addOrUpdate`
overwrites the first such item's `name` and `hex` (hex normalized) in place,
keeps its `id` and the store's length; a second `addOrUpdate` with the same
index and a different hex again keeps the length and the identity. -/
theorem c8_addOrUpdate_in_place (its : List PaletteItem)
    (nid nm hx nid2 nm2 hx2 : String) (i : Int)
    (h : ∃ x ∈ its, x.index = i) :
    ∃ j, ∃ hj : j < its.length,
      (its.get ⟨j, hj⟩).index = i ∧
      (addOrUpdate its nid nm i hx).1 =
        its.set j { id := (its.get ⟨j, hj⟩).id, name := nm, index := i,
                    hex := normalizeHex hx } ∧
      (addOrUpdate its nid nm i hx).1.length = its.length ∧
      (addOrUpdate (addOrUpdate its nid nm i hx).1 nid2 nm2 i hx2).1 =
        its.set j { id := (its.get ⟨j, hj⟩).id, name := nm2, index := i,
                    hex := normalizeHex hx2 } ∧
      (addOrUpdate (addOrUpdate its nid nm i hx).1 nid2 nm2 i hx2).1.length =
        its.length := by
  obtain ⟨j, hj, hPj, hmin⟩ := exists_first_match (fun x => x.index = i) h
  have hstep1 : (addOrUpdate its nid nm i hx).1 =
      its.set j { id := (its.get ⟨j, hj⟩).id, name := nm, index := i,
                  hex := normalizeHex hx } := by
    have hu := updateFirst_spec i nm (normalizeHex hx) its j hj hPj hmin
    rw [hPj] at hu
    exact addOrUpdate_found hu
  have hlen1 : (addOrUpdate its nid nm i hx).1.length = its.length := by
    rw [hstep1, List.length_set]
  have hj1 : j < (addOrUpdate its nid nm i hx).1.length := by rw [hlen1]; exact hj
  have hget1 : (addOrUpdate its nid nm i hx).1.get ⟨j, hj1⟩ =
      { id := (its.get ⟨j, hj⟩).id, name := nm, index := i, hex := normalizeHex hx } := by
    rw [List.get_eq_getElem]
    simp only [hstep1]
    rw [List.getElem_set_self]
  have hmin1 : ∀ m, ∀ hm : m < (addOrUpdate its nid nm i hx).1.length, m < j →
      ((addOrUpdate its nid nm i hx).1.get ⟨m, hm⟩).index ≠ i := by
    intro m hm hlt
    have hm0 : m < its.length := by rw [← hlen1]; exact hm
    have hne : j ≠ m := by omega
    have hgm : (addOrUpdate its nid nm i hx).1[m]? = its[m]? := by
      rw [hstep1]
      exact List.getElem?_set_ne hne
    rw [List.getElem?_eq_getElem (by exact hm), List.getElem?_eq_getElem hm0,
      Option.some.injEq] at hgm
    rw [List.get_eq_getElem]
    rw [hgm]
    exact hmin m hm0 hlt
  have hidx1 : ((addOrUpdate its nid nm i hx).1.get ⟨j, hj1⟩).index = i := by
    rw [hget1]
  have hstep2 : (addOrUpdate (addOrUpdate its nid nm i hx).1 nid2 nm2 i hx2).1 =
      (addOrUpdate its nid nm i hx).1.set j
        { id := ((addOrUpdate its nid nm i hx).1.get ⟨j, hj1⟩).id, name := nm2,
          index := i, hex := normalizeHex hx2 } := by
    have hu := updateFirst_spec i nm2 (normalizeHex hx2) _ j hj1 hidx1 hmin1
    rw [hidx1] at hu
    exact addOrUpdate_found hu
  refine ⟨j, hj, hPj, hstep1, hlen1, ?_, ?_⟩
  · rw [hstep2, hget1, hstep1, List.set_set]
  · rw [hstep2, List.length_set, hlen1]

/-- C8 witness: a two-item store updated twice at index 3. -/
theorem c8_addOrUpdate_in_place_witness :
    (addOrUpdate (addOrUpdate
        [⟨"a", "x", 3, "#000000"⟩, ⟨"b", "y", 5, "#111111"⟩]
        "c" "n1" 3 "#ff0000").1 "d" "n2" 3 "#00ff00").1.length = 2 := by
  obtain ⟨j, hj, -, -, -, -, hlen2⟩ :=
    c8_addOrUpdate_in_place
      [⟨"a", "x", 3, "#000000"⟩, ⟨"b", "y", 5, "#111111"⟩]
      "c" "n1" "#ff0000" "d" "n2" "#00ff00" 3 (by decide)
  exact hlen2

/-- C10: with two or more items sharing index `i`, `addOrUpdate` rewrites only
the earliest item with index `i` (the first match in internal order); every
other position is unchanged and nothing is appended. -/
theorem c10_addOrUpdate_duplicates (its : List PaletteItem) (nid nm hx : String) (i : Int)
    (h : ∃ j k, ∃ hj : j < its.length, ∃ hk : k < its.length, j ≠ k ∧
         (its.get ⟨j, hj⟩).index = i ∧ (its.get ⟨k, hk⟩).index = i) :
    ∃ j, ∃ hj : j < its.length,
      (its.get ⟨j, hj⟩).index = i ∧
      (∀ m, ∀ hm : m < its.length, m < j → (its.get ⟨m, hm⟩).index ≠ i) ∧
      (addOrUpdate its nid nm i hx).1 =
        its.set j { id := (its.get ⟨j, hj⟩).id, name := nm, index := i,
                    hex := normalizeHex hx } ∧
      (addOrUpdate its nid nm i hx).1.length = its.length ∧
      ∀ m, m ≠ j → (addOrUpdate its nid nm i hx).1[m]? = its[m]? := by
  have hex1 : ∃ x ∈ its, x.index = i := by
    obtain ⟨j, k, hj, hk, -, hji, -⟩ := h
    exact ⟨its.get ⟨j, hj⟩, List.get_mem its j hj, hji⟩
  obtain ⟨j, hj, hPj, hmin⟩ := exists_first_match (fun x => x.index = i) hex1
  have hstep1 : (addOrUpdate its nid nm i hx).1 =
      its.set j { id := (its.get ⟨j, hj⟩).id, name := nm, index := i,
                  hex := normalizeHex hx } := by
    have hu := updateFirst_spec i nm (normalizeHex hx) its j hj hPj hmin
    rw [hPj] at hu
    exact addOrUpdate_found hu
  refine ⟨j, hj, hPj, hmin, hstep1, by rw [hstep1, List.length_set], ?_⟩
  intro m hm
  rw [hstep1]
  exact List.getElem?_set_ne (by omega)

/-- C10 witness: a store with two items of index 3; the second one is
untouched by the update. -/
theorem c10_addOrUpdate_duplicates_witness :
    (addOrUpdate [⟨"a", "x", 3, "#000000"⟩, ⟨"b", "y", 3, "#111111"⟩]
        "c" "n" 3 "#ff0000").1[1]? = some (PaletteItem.mk "b" "y" 3 "#111111") := by
  obtain ⟨j, hj, hPj, hmin, hres, hlen, hother⟩ :=
    c10_addOrUpdate_duplicates
      [⟨"a", "x", 3, "#000000"⟩, ⟨"b", "y", 3, "#111111"⟩] "c" "n" "#ff0000" 3
      ⟨0, 1, by decide, by decide, by decide, by decide, by decide⟩
  have hj2 : j < 2 := hj
  have hj0 : j = 0 := by
    by_contra hne
    have h1 : j = 1 := by omega
    subst h1
    exact hmin 0 (by decide) (by decide) (by decide)
  rw [hother 1 (by omega)]
  rfl

/-! ## JSON decoder lemmas (C5, C6, C7) -/

theorem jget_obj_of_some {v : JValue} {k : String} {w : JValue}
    (h : jget v k = some w) : ∃ fs, v = JValue.obj fs := by
  cases v with
  | obj fs => exact ⟨fs, rfl⟩
  | null => cases h
  | bool b => cases h
  | num n => cases h
  | str s => cases h
  | arr xs => cases h

theorem kindIs_iff (v : JValue) :
    kindIsPaletteV1 v = true ↔ jget v "kind" = some (JValue.str "palette.v1") := by
  unfold kindIsPaletteV1
  split
  · next s heq =>
    rw [heq]
    simp
  · next hne =>
    constructor
    · intro h; cases h
    · intro h
      exact absurd rfl (by rw [h] at hne; exact fun hh => hne "palette.v1" hh)

theorem isArrOpt_iff (o : Option JValue) :
    isArrOpt o = true ↔ ∃ xs, o = some (JValue.arr xs) := by
  unfold isArrOpt
  split
  · next xs => simp
  · next hne =>
    constructor
    · intro h; cases h
    · rintro ⟨xs, rfl⟩
      exact absurd rfl (fun hh => hne xs hh)

theorem decodeItem_error_type {x : JValue} {e : DecErr} (h : decodeItem x = .error e) :
    e = .typeError := by
  cases x with
  | null => cases h; rfl
  | bool b => cases h
  | num n => cases h
  | str s => cases h
  | arr xs => cases h
  | obj fs => cases h

theorem decodeItems_no_formatError (ids : Nat → String) :
    ∀ (xs : List JValue) (k : Nat), decodeItems ids k xs ≠ .error .formatError := by
  intro xs
  induction xs with
  | nil => intro k h; cases h
  | cons x rest ih =>
    intro k h
    unfold decodeItems at h
    cases hx : decodeItem x with
    | error e =>
      rw [hx] at h
      cases h
      exact absurd (decodeItem_error_type hx) (by intro hh; cases hh)
    | ok it =>
      rw [hx] at h
      cases hr : decodeItems ids (k + 1) rest with
      | error e2 =>
        rw [hr] at h
        cases h
        exact ih (k + 1) (by rw [hr])
      | ok its2 =>
        rw [hr] at h
        cases h

/-- C5: JSON decoding fails with `FormatError` exactly when the parsed
document is not an object with `kind = "palette.v1"` and an array `items`
field; in particular `{"kind":"not.palette","items":[]}` is rejected. -/
theorem c5_json_formatError_iff (v : JValue) (ids : Nat → String) :
    ((decodePalette v ids = .error .formatError) ↔ ¬IsPaletteDoc v) ∧
    decodePalette (.obj [("kind", .str "not.palette"), ("items", .arr [])]) ids =
      .error .formatError := by
  constructor
  · unfold decodePalette
    by_cases hcond : (truthy v && kindIsPaletteV1 v && isArrOpt (jget v "items")) = true
    · rw [if_pos hcond]
      simp only [Bool.and_eq_true] at hcond
      obtain ⟨⟨htr, hkind⟩, harr⟩ := hcond
      have hdoc : IsPaletteDoc v := by
        have hk := (kindIs_iff v).mp hkind
        obtain ⟨xs, hxs⟩ := (isArrOpt_iff _).mp harr
        exact ⟨jget_obj_of_some hk, hk, xs, hxs⟩
      constructor
      · intro h
        exact absurd h (decodeItems_no_formatError ids _ 0)
      · intro h
        exact absurd hdoc h
    · rw [if_neg hcond]
      constructor
      · intro _
        intro hdoc
        obtain ⟨⟨fs, hv⟩, hk, xs, hxs⟩ := hdoc
        apply hcond
        simp only [Bool.and_eq_true]
        refine ⟨⟨?_, (kindIs_iff v).mpr hk⟩, (isArrOpt_iff _).mpr ⟨xs, hxs⟩⟩
        rw [hv]
        rfl
      · intro _
        rfl
  · rfl

/-- C6: if decoding a loaded file fails — `JSON.parse` failure, wrong
document shape, or a throwing element coercion — the handler leaves the prior
store collection exactly as it was. -/
theorem c6_decode_failure_keeps_store (prior : List PaletteItem) (ids : Nat → String)
    (isGplFile : Bool) (text : String) (parsed : Option JValue) (e : DecErr)
    (h : decodeOutcome ids isGplFile text parsed = .error e) :
    handleFileLoad prior ids isGplFile text parsed = prior := by
  unfold decodeOutcome at h
  unfold handleFileLoad
  cases isGplFile with
  | true =>
    rw [if_pos rfl] at h
    cases h
  | false =>
    rw [if_neg (by simp)] at h
    rw [if_neg (by simp)]
    cases parsed with
    | none => rfl
    | some v =>
      have h2 : decodePalette v ids = .error e := h
      show (match decodePalette v ids with
            | .ok l => l
            | .error _ => prior) = prior
      rw [h2]

/-- C6 witness: a JSON document of the wrong shape leaves the store unchanged. -/
theorem c6_decode_failure_keeps_store_witness :
    handleFileLoad [PaletteItem.mk "a" "x" 0 "#000000"] (fun _ => "i") false "nonsense"
      (some (JValue.str "x")) = [PaletteItem.mk "a" "x" 0 "#000000"] :=
  c6_decode_failure_keeps_store [PaletteItem.mk "a" "x" 0 "#000000"] (fun _ => "i")
    false "nonsense" (some (JValue.str "x")) .formatError rfl

theorem decodeItem_ok (x : JValue) (hx : x ≠ JValue.null) :
    decodeItem x =
      .ok { name := jsToString (orDefault (jget x "name") (.str ""))
            index := jsClampNum (numOr0 (jget x "index")) 0 999999
            hex := normalizeHex (jsToString (orDefault (jget x "hex") (.str "#000000"))) } := by
  cases x with
  | null => exact absurd rfl hx
  | bool b => rfl
  | num n => rfl
  | str s => rfl
  | arr xs => rfl
  | obj fs => rfl

/-- C7 (amended): per-element JSON decode coercions: `name` is empty when the
field is absent or falsy and otherwise its JS string conversion (so a numeric
name is stringified, not emptied); `index` is the JS number conversion of the
field under the full `Number()` string grammar — `NaN` becomes 0, a finite
value is clamped to `[0, 999999]`, `Infinity` clamps to 999999 and negative
`Infinity` to 0 — so numeric strings such as `"12"`, `"1e3"` and `"0x10"` are
honored, not zeroed; `hex` is `normalizeHex` of the JS string conversion,
with `"#000000"` substituted when the field is absent or falsy. -/
theorem c7_json_item_coercions (x : JValue) (hx : x ≠ JValue.null) :
    ∃ it, decodeItem x = .ok it ∧
      (jget x "name" = none → it.name = "") ∧
      (∀ v, jget x "name" = some v → truthy v = false → it.name = "") ∧
      (∀ v, jget x "name" = some v → truthy v = true → it.name = jsToString v) ∧
      (jget x "index" = none → it.index = 0) ∧
      (∀ v, jget x "index" = some v → jsToNumber v = none → it.index = 0) ∧
      (∀ v n, jget x "index" = some v → jsToNumber v = some (JsNum.fin n) →
        it.index = jsClamp n 0 999999) ∧
      (∀ v, jget x "index" = some v → jsToNumber v = some JsNum.posInf →
        it.index = 999999) ∧
      (∀ v, jget x "index" = some v → jsToNumber v = some JsNum.negInf →
        it.index = 0) ∧
      (jget x "hex" = none → it.hex = "#000000") ∧
      (∀ v, jget x "hex" = some v → truthy v = false → it.hex = "#000000") ∧
      (∀ v, jget x "hex" = some v → truthy v = true →
        it.hex = normalizeHex (jsToString v)) := by
  refine ⟨_, decodeItem_ok x hx, ?_, ?_, ?_, ?_, ?_, ?_, ?_, ?_, ?_, ?_, ?_⟩
  · intro h
    simp only [h, orDefault]
    rfl
  · intro v hv htr
    simp only [hv, orDefault, htr]
    rfl
  · intro v hv htr
    simp only [hv, orDefault, htr]
    rfl
  · intro h
    simp only [h, numOr0]
    rfl
  · intro v hv hnum
    simp only [hv, numOr0, hnum]
    rfl
  · intro v n hv hnum
    simp only [hv, numOr0, hnum]
    rfl
  · intro v hv hnum
    simp only [hv, numOr0, hnum]
    decide
  · intro v hv hnum
    simp only [hv, numOr0, hnum]
    rfl
  · intro h
    simp only [h, orDefault]
    rfl
  · intro v hv htr
    simp only [hv, orDefault, htr]
    rfl
  · intro v hv htr
    simp only [hv, orDefault, htr]
    rfl

/-- C7 witness: a fully-populated element decodes to its own fields. -/
theorem c7_json_item_coercions_witness :
    ∃ it, decodeItem (JValue.obj
        [("name", JValue.str "Red"), ("index", JValue.num 5),
         ("hex", JValue.str "#ff0000")]) = .ok it ∧ it.name = "Red" := by
  obtain ⟨it, hok, -, -, hname, -⟩ :=
    c7_json_item_coercions
      (JValue.obj [("name", JValue.str "Red"), ("index", JValue.num 5),
        ("hex", JValue.str "#ff0000")]) (by intro h; cases h)
  exact ⟨it, hok, hname (JValue.str "Red") rfl rfl⟩

/-- C7 counterexample: an element whose `name` is the number `5` (non-text)
decodes to name `"5"`, not `""`, and whose `index` is the string `"12"`
(a non-number value) decodes to index `12`, not `0`. -/
theorem c7_json_item_counterexample :
    decodeItem (JValue.obj [("name", JValue.num 5), ("index", JValue.str "12"),
        ("hex", JValue.str "#ff0000")]) =
      .ok (RawItem.mk "5" 12 "#FF0000") ∧
    jget (JValue.obj [("name", JValue.num 5), ("index", JValue.str "12"),
        ("hex", JValue.str "#ff0000")]) "name" = some (JValue.num 5) ∧
    isStrVal (JValue.num 5) = false ∧
    ("5" : String) ≠ "" ∧
    jget (JValue.obj [("name", JValue.num 5), ("index", JValue.str "12"),
        ("hex", JValue.str "#ff0000")]) "index" = some (JValue.str "12") ∧
    isNumVal (JValue.str "12") = false ∧
    (12 : Int) ≠ 0 := by
  refine ⟨by rfl, by rfl, by rfl, by decide, by rfl, by rfl, by decide⟩

/-! ## JSON round trip (C1) -/

theorem sortByIndex_sorted_id :
    ∀ {l : List PaletteItem}, List.Chain' (fun a b => a.index ≤ b.index) l →
      sortByIndex l = l
  | [], _ => rfl
  | x :: xs, h => by
    show insertByIndex x (sortByIndex xs) = x :: xs
    have htail : List.Chain' (fun a b => a.index ≤ b.index) xs := h.tail
    rw [sortByIndex_sorted_id htail]
    cases xs with
    | nil => rfl
    | cons y ys =>
      show insertByIndex x (y :: ys) = x :: y :: ys
      unfold insertByIndex
      rw [if_pos (List.chain'_cons.mp h).1]

theorem canonHex_ne_empty {s : String} (h : isCanonHex s = true) : s ≠ "" := by
  obtain ⟨rest, hd, -, -⟩ := canonHex_chars h
  intro he
  rw [he] at hd
  cases hd

theorem decodeItem_enc (it : PaletteItem) (hhex : isCanonHex it.hex = true)
    (hidx : 0 ≤ it.index ∧ it.index ≤ 999999) :
    decodeItem (encItemJson it) = .ok ⟨it.name, it.index, it.hex⟩ := by
  rw [decodeItem_ok (encItemJson it) (by intro h; cases h)]
  have hname : jget (encItemJson it) "name" = some (JValue.str it.name) := rfl
  have hindex : jget (encItemJson it) "index" = some (JValue.num it.index) := rfl
  have hhexf : jget (encItemJson it) "hex" = some (JValue.str it.hex) := rfl
  rw [hname, hindex, hhexf]
  have e1 : jsToString (orDefault (some (JValue.str it.name)) (.str "")) = it.name := by
    show jsToString (if truthy (JValue.str it.name) = true then JValue.str it.name
      else JValue.str "") = it.name
    by_cases hn : it.name = ""
    · rw [hn]
      rfl
    · rw [if_pos (by simp [truthy, hn])]
      rfl
  have e2 : jsClampNum (numOr0 (some (JValue.num it.index))) 0 999999 = it.index := by
    have : numOr0 (some (JValue.num it.index)) = JsNum.fin it.index := rfl
    rw [this]
    show jsClamp it.index 0 999999 = it.index
    exact jsClamp_of_mem hidx.1 hidx.2
  have e3 : normalizeHex (jsToString (orDefault (some (JValue.str it.hex))
      (.str "#000000"))) = it.hex := by
    show normalizeHex (jsToString (if truthy (JValue.str it.hex) = true
      then JValue.str it.hex else JValue.str "#000000")) = it.hex
    rw [if_pos (by simp [truthy, canonHex_ne_empty hhex])]
    exact normalizeHex_canon hhex
  rw [e1, e2, e3]

theorem decodeItems_enc (ids : Nat → String) :
    ∀ (its : List PaletteItem) (k : Nat),
      (∀ it ∈ its, isCanonHex it.hex = true) →
      (∀ it ∈ its, 0 ≤ it.index ∧ it.index ≤ 999999) →
      decodeItems ids k (its.map encItemJson) = .ok (attachIdsPal ids k its) := by
  intro its
  induction its with
  | nil => intro k _ _; rfl
  | cons it rest ih =>
    intro k hhex hidx
    show decodeItems ids k (encItemJson it :: rest.map encItemJson) = _
    unfold decodeItems
    rw [decodeItem_enc it (hhex it (by simp)) (hidx it (by simp))]
    rw [ih (k + 1) (fun x hx => hhex x (by simp [hx])) (fun x hx => hidx x (by simp [hx]))]
    rfl

theorem attachIdsPal_triples (ids : Nat → String) :
    ∀ (its : List PaletteItem) (k : Nat),
      (attachIdsPal ids k its).map tripleOf = its.map tripleOf := by
  intro its
  induction its with
  | nil => intro _; rfl
  | cons it rest ih =>
    intro k
    show tripleOf _ :: (attachIdsPal ids (k + 1) rest).map tripleOf = _
    rw [ih (k + 1)]
    rfl

/-- C1: encoding a non-empty, canonically-hexed, bounded-index, index-sorted
store as `palette.v1` and decoding the resulting document reproduces exactly
the same `(name, index, hex)` triples in the same order. -/
theorem c1_json_round_trip (its : List PaletteItem) (ids : Nat → String)
    (hne : its ≠ [])
    (hhex : ∀ it ∈ its, isCanonHex it.hex = true)
    (hidx : ∀ it ∈ its, 0 ≤ it.index ∧ it.index ≤ 999999)
    (hsorted : List.Chain' (fun a b => a.index ≤ b.index) its) :
    (decodePalette (encodePaletteV1 its) ids).map (List.map tripleOf) =
      .ok (its.map tripleOf) := by
  unfold encodePaletteV1
  rw [sortByIndex_sorted_id hsorted]
  have hstep : decodePalette (JValue.obj [("kind", .str "palette.v1"),
      ("items", .arr (its.map encItemJson))]) ids =
      decodeItems ids 0 (its.map encItemJson) := rfl
  rw [hstep, decodeItems_enc ids its 0 hhex hidx]
  show Except.ok ((attachIdsPal ids 0 its).map tripleOf) = _
  rw [attachIdsPal_triples ids its 0]

/-- C1 witness: a two-item canonical store round-trips. -/
theorem c1_json_round_trip_witness :
    (decodePalette (encodePaletteV1
        [PaletteItem.mk "a" "Red" 0 "#FF0000", PaletteItem.mk "b" "Sky" 2 "#00AAFF"])
      (fun _ => "i")).map (List.map tripleOf) =
      .ok [("Red", (0 : Int), "#FF0000"), ("Sky", (2 : Int), "#00AAFF")] := by
  rw [c1_json_round_trip
    [PaletteItem.mk "a" "Red" 0 "#FF0000", PaletteItem.mk "b" "Sky" 2 "#00AAFF"]
    (fun _ => "i") (by decide) (by decide) (by decide)
    (by constructor
        · decide
        · exact List.chain'_singleton _)]
  rfl

/-! ## GPL parse characterization (C2, C4) -/

theorem gplFold :
    ∀ (ls : List (List Char)) (acc : List RawItem) (k : Nat),
      ls.foldl gplStep (acc, k) =
        (acc ++ ((ls.filterMap acceptedLine).enumFrom k).map
            (fun p => mkGplRec p.1 p.2),
         k + (ls.filterMap acceptedLine).length) := by
  intro ls
  induction ls with
  | nil => intro acc k; simp
  | cons raw rest ih =>
    intro acc k
    show rest.foldl gplStep (gplStep (acc, k) raw) = _
    cases h : acceptedLine raw with
    | none =>
      have hstep : gplStep (acc, k) raw = (acc, k) := by
        unfold gplStep
        rw [h]
      rw [hstep, ih acc k]
      simp [List.filterMap_cons, h]
    | some m =>
      have hstep : gplStep (acc, k) raw = (acc ++ [mkGplRec k m], k + 1) := by
        unfold gplStep
        rw [h]
      rw [hstep, ih (acc ++ [mkGplRec k m]) (k + 1)]
      simp only [List.filterMap_cons, h, List.enumFrom_cons, List.map_cons,
        List.length_cons, List.append_assoc, List.singleton_append]
      rw [Prod.mk.injEq]
      exact ⟨rfl, by omega⟩

/-- `parseGpl` in closed form: the accepted matches, enumerated from 0. -/
theorem parseGpl_char (t : String) :
    parseGpl t = ((acceptedOf t).enumFrom 0).map (fun p => mkGplRec p.1 p.2) := by
  unfold parseGpl acceptedOf
  rw [gplFold]
  rfl

theorem mkGplRec_index (k : Nat) (m : Nat × Nat × Nat × List Char) :
    (mkGplRec k m).index = Int.ofNat k := rfl

theorem enum_mkRec_indices :
    ∀ (xs : List (Nat × Nat × Nat × List Char)) (k : Nat),
      ((xs.enumFrom k).map (fun p => mkGplRec p.1 p.2)).map RawItem.index =
        (List.range' k xs.length).map Int.ofNat := by
  intro xs
  induction xs with
  | nil => intro k; rfl
  | cons m rest ih =>
    intro k
    rw [List.enumFrom_cons]
    show RawItem.index (mkGplRec k m) ::
        ((rest.enumFrom (k + 1)).map (fun p => mkGplRec p.1 p.2)).map RawItem.index =
      (List.range' k (rest.length + 1)).map Int.ofNat
    rw [mkGplRec_index, ih (k + 1), List.range'_succ]
    rfl

theorem parseGpl_indices (t : String) :
    (parseGpl t).map RawItem.index =
      (List.range (parseGpl t).length).map Int.ofNat := by
  rw [parseGpl_char, enum_mkRec_indices, List.range_eq_range']
  have hlen : (((acceptedOf t).enumFrom 0).map (fun p => mkGplRec p.1 p.2)).length =
      (acceptedOf t).length := by
    rw [List.length_map, List.enumFrom_length]
  rw [hlen]

/-! ## The parsed records are well-formed (C2) -/

theorem matchTriple_props {l : List Char} {m : Nat × Nat × Nat × List Char}
    (h : matchTriple l = some m) :
    m.2.2.2 <:+ l ∧ (∀ c, m.2.2.2.head? = some c → isJsWs c = false) ∧
    (∀ c ∈ m.2.2.2, isLineTerm c = false) := by
  simp only [matchTriple] at h
  split at h
  · cases h
  · next hguard =>
    rw [Option.some.injEq] at h
    subst h
    simp only [Bool.or_eq_true, not_or, Bool.not_eq_true] at hguard
    refine ⟨?_, ?_, ?_⟩
    · exact (List.dropWhile_suffix _).trans ((List.dropWhile_suffix _).trans
        ((List.dropWhile_suffix _).trans ((List.dropWhile_suffix _).trans
        ((List.dropWhile_suffix _).trans (List.dropWhile_suffix _)))))
    · intro c hc
      exact head?_dropWhile_false _ _ c hc
    · intro c hc
      have := List.any_eq_false.mp hguard.2 c hc
      simpa using this

theorem acceptedLine_match {raw : List Char} {m : Nat × Nat × Nat × List Char}
    (h : acceptedLine raw = some m) : matchTriple (jsTrimL raw) = some m := by
  simp only [acceptedLine] at h
  split at h
  · cases h
  · split at h
    · cases h
    · split at h
      · cases h
      · split at h
        · cases h
        · split at h
          · cases h
          · exact h

/-- The `m[4]` group of an accepted line is already trimmed and free of line
terminators. -/
theorem acceptedLine_m4 {raw : List Char} {m : Nat × Nat × Nat × List Char}
    (h : acceptedLine raw = some m) :
    jsTrimL m.2.2.2 = m.2.2.2 ∧ (∀ c ∈ m.2.2.2, isLineTerm c = false) := by
  have hm := acceptedLine_match h
  obtain ⟨hsuf, hhead, hterm⟩ := matchTriple_props hm
  refine ⟨?_, hterm⟩
  cases hrest : m.2.2.2 with
  | nil => rfl
  | cons c cs =>
    rw [← hrest]
    apply jsTrimL_id hhead
    intro d hd
    have hlast : m.2.2.2.getLast? = (jsTrimL raw).getLast? :=
      getLast?_of_suffix hsuf (by rw [hrest]; simp)
    rw [hlast] at hd
    exact jsTrimL_last d hd

theorem colorName_props (n : Nat) :
    ("Color " ++ natDecString n) ≠ "" ∧
    jsTrimL ("Color " ++ natDecString n).data = ("Color " ++ natDecString n).data ∧
    (∀ c ∈ ("Color " ++ natDecString n).data, isLineTerm c = false) := by
  have hdata : ("Color " ++ natDecString n).data = "Color ".data ++ natDecDigits n :=
    String.data_append _ _
  refine ⟨?_, ?_, ?_⟩
  · intro h
    have hnil : ("Color " ++ natDecString n).data = [] := by rw [h]
    rw [hdata] at hnil
    cases hnil
  · rw [hdata]
    apply jsTrimL_id
    · intro h hh
      have h2 : some 'C' = some h := hh
      cases h2
      decide
    · intro h hh
      rw [List.getLast?_append_of_ne_nil _ (natDecDigits_ne_nil n)] at hh
      exact not_ws_of_digit
        (natDecDigits_all_digit n h (List.mem_of_mem_getLast? hh))
  · intro c hc
    rw [hdata] at hc
    rcases List.mem_append.mp hc with hm | hm
    · fin_cases hm <;> decide
    · exact not_term_of_not_ws (not_ws_of_digit (natDecDigits_all_digit n c hm))

theorem strMk_ne_empty {l : List Char} (h : l ≠ []) : String.mk l ≠ "" := by
  intro he
  exact h (congrArg String.data he)

theorem strMk_eq_empty {l : List Char} (h : String.mk l = "") : l = [] :=
  congrArg String.data h

theorem mkGplRec_fields (k : Nat) (m : Nat × Nat × Nat × List Char) :
    mkGplRec k m =
      { name := (if jsTrim (if String.mk m.2.2.2 = "" then "Color " ++ natDecString k
                    else String.mk m.2.2.2) = ""
                 then "Color " ++ natDecString k
                 else jsTrim (if String.mk m.2.2.2 = "" then "Color " ++ natDecString k
                    else String.mk m.2.2.2)),
        index := Int.ofNat k,
        hex := gplHexOf (jsClamp (Int.ofNat m.1) 0 255).toNat
          (jsClamp (Int.ofNat m.2.1) 0 255).toNat
          (jsClamp (Int.ofNat m.2.2.1) 0 255).toNat } := rfl

theorem mkGplRec_good (k : Nat) (m : Nat × Nat × Nat × List Char)
    (h4 : jsTrimL m.2.2.2 = m.2.2.2)
    (hterm : ∀ c ∈ m.2.2.2, isLineTerm c = false) : RecGood (mkGplRec k m) := by
  rw [mkGplRec_fields]
  have hhex : ∃ r g b, r ≤ 255 ∧ g ≤ 255 ∧ b ≤ 255 ∧
      gplHexOf (jsClamp (Int.ofNat m.1) 0 255).toNat
        (jsClamp (Int.ofNat m.2.1) 0 255).toNat
        (jsClamp (Int.ofNat m.2.2.1) 0 255).toNat = gplHexOf r g b := by
    refine ⟨(jsClamp (Int.ofNat m.1) 0 255).toNat, (jsClamp (Int.ofNat m.2.1) 0 255).toNat,
      (jsClamp (Int.ofNat m.2.2.1) 0 255).toNat, ?_, ?_, ?_, rfl⟩ <;>
      (rw [jsClamp_byte]; exact Nat.min_le_right _ 255)
  by_cases hm4 : String.mk m.2.2.2 = ""
  · rw [if_pos hm4]
    obtain ⟨hc1, hc2, hc3⟩ := colorName_props k
    have htr : jsTrim ("Color " ++ natDecString k) = "Color " ++ natDecString k := by
      unfold jsTrim
      rw [hc2]
    rw [htr, if_neg hc1]
    refine ⟨hc1, hc2, hc3, ?_⟩
    exact hhex
  · rw [if_neg hm4]
    have htr : jsTrim (String.mk m.2.2.2) = String.mk m.2.2.2 := by
      unfold jsTrim
      show String.mk (jsTrimL m.2.2.2) = String.mk m.2.2.2
      rw [h4]
    rw [htr, if_neg hm4]
    refine ⟨hm4, h4, hterm, ?_⟩
    exact hhex

theorem mem_enumFrom_snd {α : Type} :
    ∀ {l : List α} {k : Nat} {p : Nat × α}, p ∈ l.enumFrom k → p.2 ∈ l := by
  intro l
  induction l with
  | nil => intro k p h; cases h
  | cons a as ih =>
    intro k p h
    rw [List.enumFrom_cons] at h
    rcases List.mem_cons.mp h with rfl | h2
    · simp
    · exact List.mem_cons.mpr (Or.inr (ih h2))

/-- Every record `parseGpl` produces is well-formed. -/
theorem parseGpl_good (t : String) : ∀ rec ∈ parseGpl t, RecGood rec := by
  rw [parseGpl_char]
  intro rec hrec
  obtain ⟨p, hp, rfl⟩ := List.mem_map.mp hrec
  have hm : p.2 ∈ acceptedOf t := mem_enumFrom_snd hp
  obtain ⟨raw, -, hacc⟩ := List.mem_filterMap.mp hm
  obtain ⟨h4, hterm⟩ := acceptedLine_m4 hacc
  exact mkGplRec_good p.1 p.2 h4 hterm

/-! ## Lines of generated text (C2, C4) -/

theorem normCrlf_id : ∀ l : List Char, (∀ c ∈ l, c ≠ '\r') → normCrlf l = l
  | [], _ => rfl
  | [c], _ => rfl
  | c1 :: c2 :: cs, h => by
    unfold normCrlf
    rw [if_neg (by
      rintro ⟨h1, -⟩
      exact h c1 (by simp) h1)]
    rw [normCrlf_id (c2 :: cs) (fun c hc => h c (by simp [List.mem_cons.mp hc]))]

theorem splitNl_append_cons :
    ∀ {l : List Char} (rest : List Char), (∀ c ∈ l, c ≠ '\n') →
      splitNlL (l ++ '\n' :: rest) = l :: splitNlL rest := by
  intro l
  induction l with
  | nil =>
    intro rest _
    show splitNlL ('\n' :: rest) = [] :: splitNlL rest
    conv_lhs => unfold splitNlL
    rw [if_pos rfl]
  | cons c cs ih =>
    intro rest h
    show splitNlL (c :: (cs ++ '\n' :: rest)) = (c :: cs) :: splitNlL rest
    conv_lhs => unfold splitNlL
    rw [if_neg (h c (by simp))]
    rw [ih rest (fun d hd => h d (by simp [hd]))]

theorem splitNl_ne_nil : ∀ l : List Char, splitNlL l ≠ [] := by
  intro l
  induction l with
  | nil => intro h; cases h
  | cons c cs ih =>
    intro h
    unfold splitNlL at h
    by_cases hc : c = '\n'
    · rw [if_pos hc] at h
      cases h
    · rw [if_neg hc] at h
      revert h
      cases hs : splitNlL cs with
      | nil => exact absurd hs ih
      | cons a as => intro h; cases h

theorem joinNl_cons {l : List Char} {ls : List (List Char)} (h : ls ≠ []) :
    joinNl (l :: ls) = l ++ '\n' :: joinNl ls := by
  cases ls with
  | nil => exact absurd rfl h
  | cons a as => rfl

theorem split_join :
    ∀ (ls : List (List Char)) (l : List Char),
      (∀ m ∈ l :: ls, ∀ c ∈ m, c ≠ '\n') →
      splitNlL (joinNl (l :: ls) ++ ['\n']) = (l :: ls) ++ [[]] := by
  intro ls
  induction ls with
  | nil =>
    intro l h
    show splitNlL (l ++ '\n' :: []) = [l, []]
    rw [splitNl_append_cons [] (h l (by simp))]
    rfl
  | cons a as ih =>
    intro l h
    rw [joinNl_cons (by simp)]
    have : (l ++ '\n' :: joinNl (a :: as)) ++ ['\n'] =
        l ++ '\n' :: (joinNl (a :: as) ++ ['\n']) := by
      simp
    rw [this, splitNl_append_cons _ (h l (by simp))]
    rw [ih a (fun m hm c hc => h m (by simp [List.mem_cons.mp hm]) c hc)]
    rfl

theorem isEmpty_false_of_ne_nil {l : List Char} (h : l ≠ []) : l.isEmpty = false := by
  cases l with
  | nil => exact absurd rfl h
  | cons c cs => rfl

theorem startsL_cons_false {p c : Char} {ps cs : List Char} (h : p ≠ c) :
    startsL (p :: ps) (c :: cs) = false := by
  show (p == c && startsL ps cs) = false
  rw [beq_eq_false_iff_ne.mpr h]
  rfl

theorem ws_run_all (k : Nat) : ∀ c ∈ ' ' :: List.replicate k ' ', isJsWs c = true := by
  intro c hc
  rcases List.mem_cons.mp hc with rfl | h2
  · decide
  · rw [List.eq_of_mem_replicate h2]
    decide

theorem digit_head_not_ws {l m : List Char} (hl : ∀ c ∈ l, isDigitCh c = true)
    (hne : l ≠ []) : ∀ h, (l ++ m).head? = some h → isJsWs h = false := by
  intro h hh
  cases l with
  | nil => exact absurd rfl hne
  | cons d ds =>
    rw [List.cons_append, List.head?_cons, Option.some.injEq] at hh
    subst hh
    exact not_ws_of_digit (hl d (by simp))

/-- Core of the GPL fixed point: the trimmed emitted line matches the triple
regex with groups exactly `(r, g, b, nm)`. -/
theorem acceptedLine_lineChars {r g b : Nat} (hr : r ≤ 255) (hg : g ≤ 255)
    (hb : b ≤ 255) {nm : List Char} (hne : nm ≠ [])
    (hhead : ∀ h, nm.head? = some h → isJsWs h = false)
    (hlast : ∀ h, nm.getLast? = some h → isJsWs h = false)
    (hterm : ∀ c ∈ nm, isLineTerm c = false) :
    acceptedLine (lineChars r g b nm) = some (r, g, b, nm) := by
  have hdr := natDecDigits_all_digit r
  have hdg := natDecDigits_all_digit g
  have hdb := natDecDigits_all_digit b
  have hdrne := natDecDigits_ne_nil r
  have hdgne := natDecDigits_ne_nil g
  have hdbne := natDecDigits_ne_nil b
  set dr := natDecDigits r with hdr_def
  set dg := natDecDigits g with hdg_def
  set db := natDecDigits b with hdb_def
  set A := List.replicate (3 - dg.length) ' ' with hA
  set B := List.replicate (3 - db.length) ' ' with hB
  set core := dr ++ ' ' :: (A ++ (dg ++ ' ' :: (B ++ (db ++ '\t' :: nm)))) with hcore
  have hshape : lineChars r g b nm =
      List.replicate (3 - dr.length) ' ' ++ core := by
    rw [hcore]
    unfold lineChars padTo3
    rw [← hdr_def, ← hdg_def, ← hdb_def, ← hA, ← hB]
    simp [List.append_assoc]
  -- trimming
  have htrim : jsTrimL (lineChars r g b nm) = core := by
    rw [hshape, jsTrimL_ws_append (fun c hc => by
      rw [List.eq_of_mem_replicate hc]; decide)]
    apply jsTrimL_id
    · rw [hcore]
      exact digit_head_not_ws hdr hdrne
    · rw [hcore]
      intro h hh
      rw [List.getLast?_append_of_ne_nil _ (by simp)] at hh
      have h1 : (' ' :: (A ++ (dg ++ ' ' :: (B ++ (db ++ '\t' :: nm))))).getLast? =
          nm.getLast? := by
        rw [show (' ' :: (A ++ (dg ++ ' ' :: (B ++ (db ++ '\t' :: nm))))) =
          (' ' :: (A ++ (dg ++ ' ' :: (B ++ db)))) ++ '\t' :: nm by simp]
        rw [List.getLast?_append_of_ne_nil _ (by simp)]
        rw [show ('\t' :: nm) = ['\t'] ++ nm by rfl]
        rw [List.getLast?_append_of_ne_nil _ hne]
      rw [h1] at hh
      exact hlast h hh
  -- the six takeWhile / dropWhile steps
  have s1 := takeWhile_all_append (p := isDigitCh)
    (l := dr) (m := ' ' :: (A ++ (dg ++ ' ' :: (B ++ (db ++ '\t' :: nm))))) hdr
    (by intro h hh; cases hh; decide)
  have e2a : (' ' :: (A ++ (dg ++ ' ' :: (B ++ (db ++ '\t' :: nm))))) =
      (' ' :: A) ++ (dg ++ ' ' :: (B ++ (db ++ '\t' :: nm))) := by simp
  have s2 := takeWhile_all_append (p := isJsWs)
    (l := ' ' :: A) (m := dg ++ ' ' :: (B ++ (db ++ '\t' :: nm)))
    (by rw [hA]; exact ws_run_all _)
    (by
      intro h hh
      exact digit_head_not_ws hdg hdgne h hh)
  have s3 := takeWhile_all_append (p := isDigitCh)
    (l := dg) (m := ' ' :: (B ++ (db ++ '\t' :: nm))) hdg
    (by intro h hh; cases hh; decide)
  have e4a : (' ' :: (B ++ (db ++ '\t' :: nm))) =
      (' ' :: B) ++ (db ++ '\t' :: nm) := by simp
  have s4 := takeWhile_all_append (p := isJsWs)
    (l := ' ' :: B) (m := db ++ '\t' :: nm)
    (by rw [hB]; exact ws_run_all _)
    (by
      intro h hh
      exact digit_head_not_ws hdb hdbne h hh)
  have s5 := takeWhile_all_append (p := isDigitCh)
    (l := db) (m := '\t' :: nm) hdb
    (by intro h hh; cases hh; decide)
  have srest : ('\t' :: nm).dropWhile isJsWs = nm := by
    rw [List.dropWhile_cons_of_pos (by decide)]
    exact dropWhile_eq_self_of_head hhead
  -- the regex match
  have hmatch : matchTriple core = some (r, g, b, nm) := by
    simp only [matchTriple]
    rw [hcore]
    rw [s1.1, s1.2, e2a, s2.1, s2.2, s3.1, s3.2, e4a, s4.1, s4.2, s5.1, s5.2, srest]
    rw [if_neg (by
      simp only [Bool.or_eq_true, not_or]
      refine ⟨⟨⟨⟨⟨?_, ?_⟩, ?_⟩, ?_⟩, ?_⟩, ?_⟩ <;>
        first
        | (intro hfalse
           first
           | exact (by rw [isEmpty_false_of_ne_nil hdrne] at hfalse; cases hfalse)
           | exact (by rw [isEmpty_false_of_ne_nil hdgne] at hfalse; cases hfalse)
           | exact (by rw [isEmpty_false_of_ne_nil hdbne] at hfalse; cases hfalse)
           | exact (by cases hfalse)
           | exact (by rw [List.any_eq_true] at hfalse
                       obtain ⟨c, hc, hct⟩ := hfalse
                       rw [hterm c hc] at hct
                       cases hct)))]
    rw [natOfDigits_natDecDigits, natOfDigits_natDecDigits, natOfDigits_natDecDigits]
  -- the accepted-line skip checks
  obtain ⟨d, ds, hds⟩ := List.exists_cons_of_ne_nil hdrne
  have hddig : isDigitCh d = true := by
    apply hdr
    rw [hds]
    simp
  have hcorecons : core = d :: (ds ++ ' ' :: (A ++ (dg ++ ' ' :: (B ++ (db ++ '\t' :: nm))))) := by
    rw [hcore, hds]
    rfl
  have hd_ne : ∀ p : Char, isDigitCh p = false → d ≠ p := by
    intro p hp he
    rw [he, hp] at hddig
    cases hddig
  simp only [acceptedLine]
  rw [htrim, hcorecons]
  rw [isEmpty_false_of_ne_nil (by simp)]
  rw [startsL_cons_false (Ne.symm (hd_ne '#' (by decide)))]
  rw [startsL_cons_false (Ne.symm (hd_ne 'G' (by decide)))]
  rw [startsL_cons_false (Ne.symm (hd_ne 'N' (by decide)))]
  rw [startsL_cons_false (Ne.symm (hd_ne 'C' (by decide)))]
  simp only [Bool.false_eq_true, if_false]
  rw [← hcorecons, hmatch]

/-! ## Encoding well-formed records (C2) -/

theorem mkGplRec_of_match {k r g b : Nat} {nm : List Char} (hr : r ≤ 255)
    (hg : g ≤ 255) (hb : b ≤ 255) (hne : nm ≠ []) (htr : jsTrimL nm = nm) :
    mkGplRec k (r, g, b, nm) =
      { name := String.mk nm, index := Int.ofNat k, hex := gplHexOf r g b } := by
  rw [mkGplRec_fields]
  show RawItem.mk _ _ (gplHexOf (jsClamp (Int.ofNat r) 0 255).toNat
    (jsClamp (Int.ofNat g) 0 255).toNat (jsClamp (Int.ofNat b) 0 255).toNat) = _
  rw [jsClamp_byte_of_le hr, jsClamp_byte_of_le hg, jsClamp_byte_of_le hb]
  have hmkne : String.mk nm ≠ "" := strMk_ne_empty hne
  rw [if_neg hmkne]
  have htrs : jsTrim (String.mk nm) = String.mk nm := by
    show String.mk (jsTrimL nm) = String.mk nm
    rw [htr]
  rw [htrs, if_neg hmkne]

theorem gplLineOf_congr (it1 it2 : PaletteItem) (hn : it1.name = it2.name)
    (hh : it1.hex = it2.hex) : gplLineOf it1 = gplLineOf it2 := by
  unfold gplLineOf
  rw [hn, hh]

theorem gplLineOf_rec {it : PaletteItem} {r g b : Nat} (hr : r ≤ 255) (hg : g ≤ 255)
    (hb : b ≤ 255) (hhex : it.hex = gplHexOf r g b) :
    gplLineOf it = lineChars r g b (jsTrimL (collapseWsL it.name.data)) := by
  unfold gplLineOf lineChars
  rw [hhex, hexToRgb_gplHexOf hr hg hb]

theorem loadGpl_index_map (ids : Nat → String) :
    ∀ (recs : List RawItem) (k : Nat),
      (loadGpl ids k recs).map PaletteItem.index = recs.map RawItem.index := by
  intro recs
  induction recs with
  | nil => intro k; rfl
  | cons rec rest ih =>
    intro k
    show RawItem.index rec :: (loadGpl ids (k + 1) rest).map PaletteItem.index = _
    rw [ih (k + 1)]
    rfl

theorem chain_of_range' {α : Type} (f : α → Int) :
    ∀ (l : List α) (k n : Nat), l.map f = (List.range' k n).map Int.ofNat →
      List.Chain' (fun a b => f a ≤ f b) l := by
  intro l
  induction l with
  | nil => intro k n _; exact List.chain'_nil
  | cons x xs ih =>
    intro k n h
    cases n with
    | zero => cases h
    | succ n' =>
      rw [List.range'_succ, List.map_cons, List.map_cons, List.cons.injEq] at h
      obtain ⟨hx, hxs⟩ := h
      cases xs with
      | nil => exact List.chain'_singleton x
      | cons y ys =>
        rw [List.chain'_cons]
        refine ⟨?_, ih (k + 1) n' hxs⟩
        cases n' with
        | zero => cases hxs
        | succ n'' =>
          rw [List.range'_succ, List.map_cons, List.map_cons, List.cons.injEq] at hxs
          rw [hx, hxs.1]
          exact Int.ofNat_le.mpr (Nat.le_succ k)

theorem recGood_hex_canon {rec : RawItem} (h : RecGood rec) :
    normalizeHex rec.hex = rec.hex := by
  obtain ⟨-, -, -, r, g, b, hr, hg, hb, hhex⟩ := h
  rw [hhex]
  exact normalizeHex_canon (isCanonHex_gplHexOf hr hg hb)

theorem loadGpl_lines (ids : Nat → String) :
    ∀ (recs : List RawItem) (k : Nat), (∀ rec ∈ recs, RecGood rec) →
      (loadGpl ids k recs).map gplLineOf = recs.map rawLineOf := by
  intro recs
  induction recs with
  | nil => intro k _; rfl
  | cons rec rest ih =>
    intro k hgood
    have hhead : gplLineOf (PaletteItem.mk (ids k) rec.name rec.index
        (normalizeHex rec.hex)) = rawLineOf rec := by
      unfold rawLineOf
      exact gplLineOf_congr
        (PaletteItem.mk (ids k) rec.name rec.index (normalizeHex rec.hex))
        (PaletteItem.mk "" rec.name rec.index rec.hex) rfl
        (recGood_hex_canon (hgood rec (by simp)))
    have hstep : loadGpl ids k (rec :: rest) =
        PaletteItem.mk (ids k) rec.name rec.index (normalizeHex rec.hex) ::
          loadGpl ids (k + 1) rest := rfl
    rw [hstep, List.map_cons, List.map_cons, hhead,
      ih (k + 1) (fun x hx => hgood x (by simp [hx]))]

theorem sortByIndex_loadGpl {ids : Nat → String} {recs : List RawItem}
    (hidx : recs.map RawItem.index = (List.range recs.length).map Int.ofNat) :
    sortByIndex (loadGpl ids 0 recs) = loadGpl ids 0 recs := by
  apply sortByIndex_sorted_id
  apply chain_of_range' PaletteItem.index (loadGpl ids 0 recs) 0 recs.length
  rw [loadGpl_index_map, hidx, List.range_eq_range']

/-- The encoded text of a well-formed, consecutively indexed record list. -/
theorem toGpl_loadGpl (ids : Nat → String) (recs : List RawItem)
    (hgood : ∀ rec ∈ recs, RecGood rec)
    (hidx : recs.map RawItem.index = (List.range recs.length).map Int.ofNat) :
    toGpl (loadGpl ids 0 recs) =
      String.mk (joinNl (["GIMP Palette".data, "Name: Palette".data, ['#']] ++
        recs.map rawLineOf) ++ ['\n']) := by
  unfold toGpl
  rw [sortByIndex_loadGpl hidx, loadGpl_lines ids recs 0 hgood]

/-! ## Re-parsing the generated text (C2) -/

theorem name_data_ne_nil {rec : RawItem} (h : rec.name ≠ "") : rec.name.data ≠ [] := by
  intro hd
  apply h
  have : rec.name = String.mk rec.name.data := (strMk_data _).symm
  rw [this, hd]

theorem recGood_nm {rec : RawItem} (h : RecGood rec) :
    NmGood (jsTrimL (collapseWsL rec.name.data)) := by
  obtain ⟨hne, htr, hterm, -⟩ := h
  have hdata := name_data_ne_nil hne
  obtain ⟨c, cs, hcs⟩ := List.exists_cons_of_ne_nil hdata
  have hcw : isJsWs c = false := by
    apply jsTrimL_head (l := rec.name.data)
    rw [htr, hcs]
    rfl
  have hcmem : c ∈ collapseWsL rec.name.data :=
    collapse_has_nonws (by rw [hcs]; simp) hcw
  refine ⟨jsTrimL_ne_nil hcmem hcw, jsTrimL_head, jsTrimL_last, ?_, ?_⟩
  · intro d hd
    rcases mem_collapse_aux (mem_of_mem_jsTrimL hd) with rfl | hdm
    · decide
    · exact hterm d hdm
  · exact wsNormal_jsTrimL (wsNormal_collapse _)

theorem nmGood_fix {nm : List Char} (hws : WsNormal nm) (hn : NmGood nm) :
    jsTrimL (collapseWsL nm) = nm := by
  rw [collapse_of_wsNormal hws]
  exact jsTrimL_id hn.2.1 hn.2.2.1

theorem acceptedLine_rawLineOf {rec : RawItem} (h : RecGood rec) :
    acceptedLine (rawLineOf rec) = some (rawMatchOf rec) := by
  have h2 := h
  obtain ⟨-, -, -, r, g, b, hr, hg, hb, hhex⟩ := h2
  obtain ⟨hne, hhead, hlast, hterm, hws⟩ := recGood_nm h
  have hline : rawLineOf rec =
      lineChars r g b (jsTrimL (collapseWsL rec.name.data)) := by
    unfold rawLineOf
    exact gplLineOf_rec hr hg hb hhex
  rw [hline, acceptedLine_lineChars hr hg hb hne hhead hlast hterm]
  unfold rawMatchOf
  rw [hhex, hexToRgb_gplHexOf hr hg hb]

theorem filterMap_rawLines :
    ∀ recs : List RawItem, (∀ rec ∈ recs, RecGood rec) →
      (recs.map rawLineOf).filterMap acceptedLine = recs.map rawMatchOf := by
  intro recs
  induction recs with
  | nil => intro _; rfl
  | cons rec rest ih =>
    intro hgood
    rw [List.map_cons, List.filterMap_cons,
      acceptedLine_rawLineOf (hgood rec (by simp)),
      ih (fun x hx => hgood x (by simp [hx]))]
    rfl

theorem ne_nl_of_not_term {c : Char} (h : isLineTerm c = false) : c ≠ '\n' := by
  intro he
  rw [he] at h
  cases h

theorem ne_cr_of_not_term {c : Char} (h : isLineTerm c = false) : c ≠ '\r' := by
  intro he
  rw [he] at h
  cases h

theorem mem_padTo3 {c : Char} {l : List Char} (h : c ∈ padTo3 l) : c = ' ' ∨ c ∈ l := by
  unfold padTo3 at h
  rcases List.mem_append.mp h with hm | hm
  · exact Or.inl (List.eq_of_mem_replicate hm)
  · exact Or.inr hm

theorem lineChars_no_term {r g b : Nat} {nm : List Char}
    (hterm : ∀ c ∈ nm, isLineTerm c = false) :
    ∀ c ∈ lineChars r g b nm, isLineTerm c = false := by
  intro c hc
  unfold lineChars at hc
  have hdig : ∀ v : Nat, c ∈ padTo3 (natDecDigits v) → isLineTerm c = false := by
    intro v hv
    rcases mem_padTo3 hv with rfl | hm
    · decide
    · exact not_term_of_not_ws (not_ws_of_digit (natDecDigits_all_digit v c hm))
  simp only [List.append_assoc, List.cons_append, List.mem_append,
    List.mem_cons] at hc
  rcases hc with hm | rfl | hm | rfl | hm | rfl | hm
  · exact hdig r hm
  · decide
  · exact hdig g hm
  · decide
  · exact hdig b hm
  · decide
  · exact hterm c hm

theorem rawLineOf_no_term {rec : RawItem} (h : RecGood rec) :
    ∀ c ∈ rawLineOf rec, isLineTerm c = false := by
  have h2 := h
  obtain ⟨-, -, -, r, g, b, hr, hg, hb, hhex⟩ := h2
  have hline : rawLineOf rec =
      lineChars r g b (jsTrimL (collapseWsL rec.name.data)) := by
    unfold rawLineOf
    exact gplLineOf_rec hr hg hb hhex
  rw [hline]
  exact lineChars_no_term (recGood_nm h).2.2.2.1

theorem mem_joinNl :
    ∀ {ls : List (List Char)} {c : Char}, c ∈ joinNl ls →
      c = '\n' ∨ ∃ l ∈ ls, c ∈ l := by
  intro ls
  induction ls with
  | nil => intro c h; cases h
  | cons l rest ih =>
    intro c h
    cases hr : rest with
    | nil =>
      rw [hr] at h
      exact Or.inr ⟨l, by simp, h⟩
    | cons a as =>
      rw [hr, joinNl_cons (by simp)] at h
      rcases List.mem_append.mp h with hm | hm
      · exact Or.inr ⟨l, by simp, hm⟩
      · rcases List.mem_cons.mp hm with rfl | hm2
        · exact Or.inl rfl
        · rcases ih (by rw [hr]; exact hm2) with h3 | ⟨m, hm3, hc3⟩
          · exact Or.inl h3
          · rw [hr] at hm3
            exact Or.inr ⟨m, by simp [List.mem_cons.mp hm3], hc3⟩

/-- The accepted matches of the generated GPL text are exactly the per-record
matches, in order. -/
theorem acceptedOf_gen (recs : List RawItem) (hgood : ∀ rec ∈ recs, RecGood rec) :
    acceptedOf (String.mk (joinNl (["GIMP Palette".data, "Name: Palette".data, ['#']] ++
        recs.map rawLineOf) ++ ['\n'])) = recs.map rawMatchOf := by
  unfold acceptedOf
  have hlines_no_nl : ∀ m ∈ "GIMP Palette".data ::
      ("Name: Palette".data :: ['#'] :: recs.map rawLineOf), ∀ c ∈ m, c ≠ '\n' := by
    intro m hm c hc
    rcases List.mem_cons.mp hm with rfl | hm2
    · exact (by decide : ∀ x ∈ "GIMP Palette".data, x ≠ '\n') c hc
    · rcases List.mem_cons.mp hm2 with rfl | hm3
      · exact (by decide : ∀ x ∈ "Name: Palette".data, x ≠ '\n') c hc
      · rcases List.mem_cons.mp hm3 with rfl | hm4
        · exact (by decide : ∀ x ∈ ['#'], x ≠ '\n') c hc
        · obtain ⟨rec, hrec, rfl⟩ := List.mem_map.mp hm4
          exact ne_nl_of_not_term (rawLineOf_no_term (hgood rec hrec) c hc)
  have hnocr : ∀ c ∈ joinNl (["GIMP Palette".data, "Name: Palette".data, ['#']] ++
      recs.map rawLineOf) ++ ['\n'], c ≠ '\r' := by
    intro c hc
    rcases List.mem_append.mp hc with hm | hm
    · rcases mem_joinNl hm with rfl | ⟨l, hl, hcl⟩
      · decide
      · rcases List.mem_cons.mp hl with rfl | hl2
        · exact (by decide : ∀ x ∈ "GIMP Palette".data, x ≠ '\r') c hcl
        · rcases List.mem_cons.mp hl2 with rfl | hl3
          · exact (by decide : ∀ x ∈ "Name: Palette".data, x ≠ '\r') c hcl
          · rcases List.mem_cons.mp hl3 with rfl | hl4
            · exact (by decide : ∀ x ∈ ['#'], x ≠ '\r') c hcl
            · obtain ⟨rec, hrec, rfl⟩ := List.mem_map.mp hl4
              exact ne_cr_of_not_term (rawLineOf_no_term (hgood rec hrec) c hcl)
    · rcases List.mem_singleton.mp hm with rfl
      decide
  rw [show (String.mk (joinNl (["GIMP Palette".data, "Name: Palette".data, ['#']] ++
      recs.map rawLineOf) ++ ['\n'])).data =
    joinNl (["GIMP Palette".data, "Name: Palette".data, ['#']] ++
      recs.map rawLineOf) ++ ['\n'] from rfl]
  rw [normCrlf_id _ hnocr]
  rw [show (["GIMP Palette".data, "Name: Palette".data, ['#']] ++ recs.map rawLineOf) =
    "GIMP Palette".data :: ("Name: Palette".data :: ['#'] :: recs.map rawLineOf) from rfl]
  rw [split_join _ _ hlines_no_nl]
  rw [show ("GIMP Palette".data :: ("Name: Palette".data :: ['#'] :: recs.map rawLineOf)
      ++ [[]]) = "GIMP Palette".data :: "Name: Palette".data :: ['#'] ::
      (recs.map rawLineOf ++ [[]]) from by simp]
  rw [List.filterMap_cons, List.filterMap_cons, List.filterMap_cons]
  rw [show acceptedLine "GIMP Palette".data = none from by decide]
  rw [show acceptedLine "Name: Palette".data = none from by decide]
  rw [show acceptedLine ['#'] = none from by decide]
  rw [List.filterMap_append, filterMap_rawLines recs hgood]
  rw [show List.filterMap acceptedLine [[]] = [] from by decide]
  rw [List.append_nil]

theorem enum_match_eq :
    ∀ (recs : List RawItem) (k : Nat), (∀ rec ∈ recs, RecGood rec) →
      recs.map RawItem.index = (List.range' k recs.length).map Int.ofNat →
      ((recs.map rawMatchOf).enumFrom k).map (fun p => mkGplRec p.1 p.2) =
        recs.map collapsedRec := by
  intro recs
  induction recs with
  | nil => intro k _ _; rfl
  | cons rec rest ih =>
    intro k hgood hidx
    rw [List.map_cons, List.length_cons, List.range'_succ, List.map_cons,
      List.cons.injEq] at hidx
    obtain ⟨hx, hrest⟩ := hidx
    rw [List.map_cons, List.enumFrom_cons, List.map_cons,
      ih (k + 1) (fun x hx2 => hgood x (by simp [hx2])) hrest, List.map_cons]
    refine congrArg (· :: _) ?_
    obtain ⟨-, -, -, r, g, b, hr, hg, hb, hhex⟩ := hgood rec (by simp)
    obtain ⟨hne, hhead, hlast, -, -⟩ := recGood_nm (hgood rec (by simp))
    have hmatch : rawMatchOf rec = (r, g, b, jsTrimL (collapseWsL rec.name.data)) := by
      unfold rawMatchOf
      rw [hhex, hexToRgb_gplHexOf hr hg hb]
    rw [hmatch, mkGplRec_of_match hr hg hb hne (jsTrimL_idem _)]
    unfold collapsedRec
    rw [← hx, ← hhex]

/-- Re-parsing the encoded store collapses each name and keeps index and hex. -/
theorem parse_toGpl (ids : Nat → String) (recs : List RawItem)
    (hgood : ∀ rec ∈ recs, RecGood rec)
    (hidx : recs.map RawItem.index = (List.range recs.length).map Int.ofNat) :
    parseGpl (toGpl (loadGpl ids 0 recs)) = recs.map collapsedRec := by
  rw [toGpl_loadGpl ids recs hgood hidx, parseGpl_char, acceptedOf_gen recs hgood]
  apply enum_match_eq recs 0 hgood
  rw [hidx, List.range_eq_range']

theorem collapsedRec_good {rec : RawItem} (h : RecGood rec) :
    RecGood (collapsedRec rec) := by
  obtain ⟨hne, hhead, hlast, hterm, hws⟩ := recGood_nm h
  have h2 := h
  obtain ⟨-, -, -, r, g, b, hr, hg, hb, hhex⟩ := h2
  refine ⟨strMk_ne_empty hne, ?_, ?_, r, g, b, hr, hg, hb, hhex⟩
  · show jsTrimL (jsTrimL (collapseWsL rec.name.data)) =
      jsTrimL (collapseWsL rec.name.data)
    exact jsTrimL_idem _
  · exact hterm

theorem collapsedRec_index_map (recs : List RawItem) :
    (recs.map collapsedRec).map RawItem.index = recs.map RawItem.index := by
  induction recs with
  | nil => rfl
  | cons rec rest ih =>
    simp only [List.map_cons, ih]
    rfl

theorem gplLineOf_name_congr {it1 it2 : PaletteItem} (hh : it1.hex = it2.hex)
    (hn : jsTrimL (collapseWsL it1.name.data) = jsTrimL (collapseWsL it2.name.data)) :
    gplLineOf it1 = gplLineOf it2 := by
  unfold gplLineOf
  rw [hh, hn]

theorem rawLineOf_collapsedRec {rec : RawItem} (h : RecGood rec) :
    rawLineOf (collapsedRec rec) = rawLineOf rec := by
  unfold rawLineOf
  refine gplLineOf_name_congr ?_ ?_
  · rfl
  show jsTrimL (collapseWsL (collapsedRec rec).name.data) = _
  have hd : (collapsedRec rec).name.data = jsTrimL (collapseWsL rec.name.data) := rfl
  rw [hd, nmGood_fix (wsNormal_jsTrimL (wsNormal_collapse _)) (recGood_nm h)]

theorem collapsed_lines {recs : List RawItem} (hgood : ∀ rec ∈ recs, RecGood rec) :
    (recs.map collapsedRec).map rawLineOf = recs.map rawLineOf := by
  induction recs with
  | nil => rfl
  | cons rec rest ih =>
    simp only [List.map_cons]
    rw [rawLineOf_collapsedRec (hgood rec (by simp)),
      ih (fun x hx => hgood x (by simp [hx]))]

/-- C2: `parseGpl` accepts exactly the matching lines in file order (closed
form via `acceptedOf`), assigns the sequential indices `0..n-1`, and one
encode/decode hop reaches a fixed point: with `t1 = toGpl(load(parseGpl t))`,
encoding the decoded `t1` again yields `t1` byte for byte, for every input
text `t` and any fresh-id supplies. -/
theorem c2_gpl_round_trip (t : String) (ids ids2 : Nat → String) :
    parseGpl t = ((acceptedOf t).enumFrom 0).map (fun p => mkGplRec p.1 p.2) ∧
    (parseGpl t).map RawItem.index =
      (List.range (parseGpl t).length).map Int.ofNat ∧
    toGpl (loadGpl ids2 0 (parseGpl (toGpl (loadGpl ids 0 (parseGpl t))))) =
      toGpl (loadGpl ids 0 (parseGpl t)) := by
  refine ⟨parseGpl_char t, parseGpl_indices t, ?_⟩
  have hgood := parseGpl_good t
  have hidx := parseGpl_indices t
  rw [parse_toGpl ids (parseGpl t) hgood hidx]
  have hgood2 : ∀ rec ∈ (parseGpl t).map collapsedRec, RecGood rec := by
    intro rec hrec
    obtain ⟨x, hx, rfl⟩ := List.mem_map.mp hrec
    exact collapsedRec_good (hgood x hx)
  have hidx2 : ((parseGpl t).map collapsedRec).map RawItem.index =
      (List.range ((parseGpl t).map collapsedRec).length).map Int.ofNat := by
    rw [collapsedRec_index_map, List.length_map]
    exact hidx
  rw [toGpl_loadGpl ids2 _ hgood2 hidx2, toGpl_loadGpl ids _ hgood hidx,
    collapsed_lines hgood]

/-! ## GPL leniency (C4) -/

/-- C4: a line that is neither skipped nor a triple match leaves the parser
state untouched — no error, no counter increment — so a malformed line between
two valid lines yields exactly two records with indices 0 and 1. -/
theorem c4_gpl_malformed_line_skipped (bad : String) (st : List RawItem × Nat)
    (h1 : ∀ c ∈ bad.data, c ≠ '\n' ∧ c ≠ '\r')
    (h2 : acceptedLine bad.data = none) :
    gplStep st bad.data = st ∧
    parseGpl ("255   0   0\tRed\n" ++ bad ++ "\n  0 255   0\tGreen\n") =
      [RawItem.mk "Red" 0 "#FF0000", RawItem.mk "Green" 1 "#00FF00"] := by
  have hskip : ∀ st2 : List RawItem × Nat, gplStep st2 bad.data = st2 := by
    intro st2
    unfold gplStep
    rw [h2]
  refine ⟨hskip st, ?_⟩
  unfold parseGpl
  have e1 : "255   0   0\tRed\n".data = "255   0   0\tRed".data ++ ['\n'] := by decide
  have e2 : "\n  0 255   0\tGreen\n".data =
      '\n' :: ("  0 255   0\tGreen".data ++ '\n' :: []) := by decide
  have hdata : ("255   0   0\tRed\n" ++ bad ++ "\n  0 255   0\tGreen\n").data =
      "255   0   0\tRed".data ++
        '\n' :: (bad.data ++ '\n' :: ("  0 255   0\tGreen".data ++ '\n' :: [])) := by
    rw [String.data_append, String.data_append, e1, e2]
    simp
  rw [hdata]
  have hnocr : ∀ c ∈ "255   0   0\tRed".data ++
      '\n' :: (bad.data ++ '\n' :: ("  0 255   0\tGreen".data ++ '\n' :: [])),
      c ≠ '\r' := by
    intro c hc
    rcases List.mem_append.mp hc with hm | hm
    · exact (by decide : ∀ x ∈ "255   0   0\tRed".data, x ≠ '\r') c hm
    · rcases List.mem_cons.mp hm with rfl | hm2
      · decide
      · rcases List.mem_append.mp hm2 with hm3 | hm3
        · exact (h1 c hm3).2
        · rcases List.mem_cons.mp hm3 with rfl | hm4
          · decide
          · rcases List.mem_append.mp hm4 with hm5 | hm5
            · exact (by decide : ∀ x ∈ "  0 255   0\tGreen".data, x ≠ '\r') c hm5
            · rcases List.mem_cons.mp hm5 with rfl | hm6
              · decide
              · cases hm6
  rw [normCrlf_id _ hnocr]
  rw [splitNl_append_cons _ (by decide : ∀ c ∈ "255   0   0\tRed".data, c ≠ '\n')]
  rw [splitNl_append_cons _ (fun c hc => (h1 c hc).1)]
  rw [splitNl_append_cons _ (by decide : ∀ c ∈ "  0 255   0\tGreen".data, c ≠ '\n')]
  simp only [List.foldl_cons, List.foldl_nil]
  rw [show gplStep ([], 0) "255   0   0\tRed".data =
    ([RawItem.mk "Red" 0 "#FF0000"], 1) from by decide]
  rw [hskip ([RawItem.mk "Red" 0 "#FF0000"], 1)]
  rw [show gplStep ([RawItem.mk "Red" 0 "#FF0000"], 1) "  0 255   0\tGreen".data =
    ([RawItem.mk "Red" 0 "#FF0000", RawItem.mk "Green" 1 "#00FF00"], 2) from by decide]
  rw [show splitNlL [] = [[]] from rfl]
  simp only [List.foldl_cons, List.foldl_nil]
  rw [show gplStep ([RawItem.mk "Red" 0 "#FF0000", RawItem.mk "Green" 1 "#00FF00"], 2)
    [] = ([RawItem.mk "Red" 0 "#FF0000", RawItem.mk "Green" 1 "#00FF00"], 2) from by
      decide]

/-- C4 witness: the malformed line `"hello"` between two valid lines. -/
theorem c4_gpl_malformed_line_skipped_witness :
    parseGpl ("255   0   0\tRed\n" ++ "hello" ++ "\n  0 255   0\tGreen\n") =
      [RawItem.mk "Red" 0 "#FF0000", RawItem.mk "Green" 1 "#00FF00"] := by
  obtain ⟨-, hp⟩ :=
    c4_gpl_malformed_line_skipped "hello" ([], 0) (by decide) (by decide)
  exact hp

example : normalizeHex "  #aB01ff " = "#AB01FF" := by decide
example : normalizeHex "zzz" = "#000000" := by decide
example : hexToRgb "#FF0000" = (255, 0, 0) := by decide
example : gplHexOf 255 0 0 = "#FF0000" := by decide
example : jsTrim " a b " = "a b" := by decide
example : collapseWsL "a  \t b".data = "a b".data := by decide
example : splitNlL "a\nb\n".data = ["a".data, "b".data, []] := by decide
example : natDecDigits 255 = ['2', '5', '5'] := by decide
example : parseGpl "GIMP Palette\nName: Palette\n#\n255   0   0\tRed\n" =
    [⟨"Red", 0, "#FF0000"⟩] := by decide
example : parseGpl "255 0 0 Red\nbogus line\n0 255 0\tGreen\n" =
    [⟨"Red", 0, "#FF0000"⟩, ⟨"Green", 1, "#00FF00"⟩] := by decide
example : parseGpl "1 2 3" = [⟨"Color 0", 0, "#010203"⟩] := by decide
example :
    toGpl [⟨"a", "Red", 0, "#FF0000"⟩] =
      "GIMP Palette\nName: Palette\n#\n255   0   0\tRed\n" := by decide
example :
    decodePalette (.obj [("kind", .str "not.palette"), ("items", .arr [])]) (fun _ => "i") =
      .error .formatError := by rfl
example :
    decodePalette (.obj [("kind", .str "palette.v1"), ("items", .arr [])]) (fun _ => "i") =
      .ok [] := by rfl
example :
    decodeItem (.obj [("name", .num 5), ("index", .str "12"), ("hex", .str "#ff0000")]) =
      .ok ⟨"5", 12, "#FF0000"⟩ := by rfl
example : jsStringToNumber "" = some (JsNum.fin 0) := by rfl
example : jsStringToNumber "  12  " = some (JsNum.fin 12) := by rfl
example : jsStringToNumber "-12" = some (JsNum.fin (-12)) := by rfl
example : jsStringToNumber "1e3" = some (JsNum.fin 1000) := by rfl
example : jsStringToNumber "1E3" = some (JsNum.fin 1000) := by rfl
example : jsStringToNumber "12.50e1" = some (JsNum.fin 125) := by rfl
example : jsStringToNumber "-2.5e1" = some (JsNum.fin (-25)) := by rfl
example : jsStringToNumber "12." = some (JsNum.fin 12) := by rfl
example : jsStringToNumber "0x10" = some (JsNum.fin 16) := by rfl
example : jsStringToNumber "0XaB" = some (JsNum.fin 171) := by rfl
example : jsStringToNumber "0o17" = some (JsNum.fin 15) := by rfl
example : jsStringToNumber "0b101" = some (JsNum.fin 5) := by rfl
example : jsStringToNumber "Infinity" = some JsNum.posInf := by rfl
example : jsStringToNumber "+Infinity" = some JsNum.posInf := by rfl
example : jsStringToNumber "-Infinity" = some JsNum.negInf := by rfl
example : jsStringToNumber "abc" = none := by rfl
example : jsStringToNumber "NaN" = none := by rfl
example : jsStringToNumber "12px" = none := by rfl
example : jsStringToNumber "1e" = none := by rfl
example : jsStringToNumber "+0x10" = none := by rfl
example : jsStringToNumber "0x" = none := by rfl
example :
    decodeItem (.obj [("index", .str "1e3")]) = .ok ⟨"", 1000, "#000000"⟩ := by rfl
example :
    decodeItem (.obj [("index", .str "0x10")]) = .ok ⟨"", 16, "#000000"⟩ := by rfl
example :
    decodeItem (.obj [("index", .str "Infinity")]) = .ok ⟨"", 999999, "#000000"⟩ := by rfl
example :
    decodeItem (.obj [("index", .str "-Infinity")]) = .ok ⟨"", 0, "#000000"⟩ := by rfl
example :
    (addOrUpdate [⟨"a", "x", 3, "#000000"⟩] "b" "y" 3 "#ff0000").1 =
      [⟨"a", "y", 3, "#FF0000"⟩] := by decide
example : gridCols 3 = 3 ∧ gridRows 7 3 = 3 := by decide
